import Mathlib

/-!
# Verification of the spore-tree optimization pipeline

A shallow embedding of the core of the `tree_optimization` repository:
the spore-tree construction and angular sort (`src/spore_tree.py`), the
convergence tables (`src/pairs/compute_convergence_tables.py`,
`src/pairs/complete_meeting_analysis.py`), the chronology-based pair
extraction (`src/pairs/extract_pairs_from_chronology.py`), the per-pair
step-size optimizers (`src/pairs_3/optimize_grandchild_pairs.py`), and the
area evaluation used by the hard-constrained dt-vector optimizer
(`src/area_opt/tree_area_evaluator.py`, `src/area_opt/optimize_tree_area.py`,
`src/tree_evaluator.py`).

Numbers are idealized as rationals.  The pendulum integrator
(`PendulumSystem.step`), the continuous dynamics
(`PendulumSystem.pendulum_dynamics`) and the Euclidean norm are external
collaborators of the code under study (the spec declares the state-transition
function out of scope); they are taken as abstract function parameters
throughout, so every theorem quantifies over them.
-/

namespace TreeOpt

/-- A 2-D state `(theta, omega)`, the `position` field of a spore. -/
abbrev Pt := ℚ × ℚ

/-- Pointwise difference of two positions (numpy `r1 - r2`). -/
def psub (a b : Pt) : Pt := (a.1 - b.1, a.2 - b.2)

/-- Dot product of two 2-vectors (numpy `np.dot`). -/
def pdot (a b : Pt) : ℚ := a.1 * b.1 + a.2 * b.2

/-- Scalar multiple of a 2-vector. -/
def psmul (c : ℚ) (a : Pt) : Pt := (c * a.1, c * a.2)

/-- `np.sign` on rationals: `1`, `-1` or `0`. -/
def rsign (x : ℚ) : ℚ := if 0 < x then 1 else if x < 0 then -1 else 0

/-!
## Shoelace area over the 4 pair-mean points (`TreeEvaluator.area`)

`src/tree_evaluator.py` computes
`0.5 * |x . roll(y,1) - y . roll(x,1)|` over the `(4,2)` array of mean
points; `np.roll(v, 1)` sends entry `i` to entry `i+1`, so entry `i` of the
rolled vector is entry `i - 1` of `v`.
-/

/-- The shoelace quadrilateral area of 4 points, exactly as computed by
`TreeEvaluator.area`: `0.5 * |sum_i x_i * y_(i-1) - sum_i y_i * x_(i-1)|`. -/
def shoelace_area (mp : Fin 4 → Pt) : ℚ :=
  (1/2) * |(∑ i : Fin 4, (mp i).1 * (mp (i - 1)).2) -
           (∑ i : Fin 4, (mp i).2 * (mp (i - 1)).1)|

/-!
## The tree data model (`src/spore_tree.py`)

A child record keeps exactly the fields of the Python dict that the code
under study reads: `position`, `control`, the signed `dt` and `child_idx`.
A grandchild record likewise keeps `position`, `parent_idx`, `local_idx`,
`global_idx`, `control` and the signed `dt`.  Cosmetic fields (`id`, `name`,
`color`, `size`, `dt_abs`) are omitted.
-/

/-- A child spore (`SporeTree.create_children` record). -/
structure Child where
  position : Pt
  control : ℚ
  dt : ℚ
  child_idx : ℕ
deriving DecidableEq, Inhabited

/-- A grandchild spore (`SporeTree.create_grandchildren` record). -/
structure GC where
  position : Pt
  parent_idx : ℕ
  local_idx : ℕ
  global_idx : ℕ
  control : ℚ
  dt : ℚ
deriving DecidableEq, Inhabited

/-- The external integrator interface `PendulumSystem.step
(state, control, signed_dt) -> state`; abstract, per the spec. -/
abbrev Step := Pt → ℚ → ℚ → Pt

/-- `SporeTree.create_children`: 4 children of the root, one per
(control extreme, time direction) combination, controls
`[u_max, u_max, u_min, u_min]` and dt signs `[1, -1, 1, -1]`. -/
def create_children (step : Step) (root : Pt) (u_min u_max : ℚ)
    (dt_children : List ℚ) : List Child :=
  (List.range 4).map fun i =>
    let control := [u_max, u_max, u_min, u_min].getD i 0
    let sign : ℚ := [1, -1, 1, -1].getD i 0
    let signed_dt := dt_children.getD i 0 * sign
    { position := step root control signed_dt
      control := control
      dt := signed_dt
      child_idx := i }

/-- `SporeTree.create_grandchildren`: 2 grandchildren per child
(`local_idx` 0 = forward `+dt`, 1 = backward `-dt`), each with the
*negated* control of its parent; `global_idx` counts creation order. -/
def create_grandchildren (step : Step) (children : List Child)
    (dt_grandchildren : List ℚ) : List GC :=
  children.enum.flatMap fun (parent_idx, parent) =>
    (List.range 2).map fun local_idx =>
      let global_idx := 2 * parent_idx + local_idx
      let dt_positive := dt_grandchildren.getD global_idx 0
      let final_dt := if local_idx = 0 then dt_positive else -dt_positive
      { position := step parent.position (-parent.control) final_dt
        parent_idx := parent_idx
        local_idx := local_idx
        global_idx := global_idx
        control := -parent.control
        dt := final_dt }

/-- `SporeTree._create_pairing_candidate_map`, the list stored at key
`g.global_idx`: the ascending sort of the global indices of all
grandchildren whose `parent_idx` differs from `g`'s. -/
def pairing_candidates (grandchildren : List GC) (g : GC) : List ℕ :=
  List.insertionSort (· ≤ ·)
    ((grandchildren.filter (fun o => o.parent_idx ≠ g.parent_idx)).map
      (fun o => o.global_idx))

/-!
## The angular sort (`SporeTree.sort_and_pair_grandchildren`)

The Python code sorts the 8 grandchildren by `np.arctan2(dy, dx)` of the
offset from the root, descending (`reverse=True`, counterclockwise first).
`arctan2` returns values in `(-pi, pi]`, with `arctan2(0, 0) = 0`.  Over the
rationals the induced order is captured exactly, without evaluating the
transcendental function, by a quadrant class together with a cross-product
comparison inside each open half-plane:

* class 3: `dy = 0, dx < 0` (angle `pi`, the maximum);
* class 2: `dy > 0` (angle in `(0, pi)`);
* class 1: `dy = 0, dx >= 0` (angle `0`, including the origin);
* class 0: `dy < 0` (angle in `(-pi, 0)`).

Within classes 2 and 0 both angles lie in an open interval of length `pi`,
where `angle a >= angle b` iff the cross product `b x a` is nonnegative.
Classes 3 and 1 are single angles.  Python's `sorted` is stable, which the
non-strict comparator below reproduces under `List.insertionSort`.
-/

/-- Quadrant class of the offset vector, ordered by `arctan2` value. -/
def angClass (v : Pt) : ℕ :=
  if v.2 = 0 ∧ v.1 < 0 then 3
  else if 0 < v.2 then 2
  else if v.2 = 0 then 1
  else 0

/-- `angle_from_root a >= angle_from_root b` in the descending
`arctan2`-sort of `sort_and_pair_grandchildren`. -/
def angleGe (root : Pt) (a b : GC) : Bool :=
  let va := psub a.position root
  let vb := psub b.position root
  if angClass va = angClass vb then
    if angClass va = 2 ∨ angClass va = 0 then
      decide (0 ≤ vb.1 * va.2 - vb.2 * va.1)
    else true
  else decide (angClass vb < angClass va)

/-- The consecutive-pair invariant checked (as a hard assert) at the end of
`sort_and_pair_grandchildren`: for each `pair_idx < 4`, positions `2*k` and
`2*k+1` exist and hold grandchildren of different parents. -/
def pairsOk (l : List GC) : Bool :=
  (List.range 4).all fun k =>
    match l.get? (2 * k), l.get? (2 * k + 1) with
    | some a, some b => a.parent_idx ≠ b.parent_idx
    | _, _ => false

/-- `SporeTree.sort_and_pair_grandchildren`: sort by angle from the root
(descending), rotate so the first grandchild of parent 0 leads, rotate once
more if position 1 is also parent 0, then check the pair invariant.  The
Python assert aborting the program is modelled as `none`. -/
def sort_and_pair_grandchildren (root : Pt) (grandchildren : List GC) :
    Option (List GC) :=
  let s1 := List.insertionSort (fun a b => angleGe root a b = true) grandchildren
  let s2 := s1.rotateLeft (s1.findIdx (fun gc => gc.parent_idx == 0))
  let s3 := match s2 with
    | _ :: b :: _ => if b.parent_idx = 0 then s2.rotateRight 1 else s2
    | _ => s2
  if pairsOk s3 then some s3 else none

/-- `SporeTree.calculate_mean_points`: the mean of positions `2*k` and
`2*k+1` of the sorted grandchildren, for each pair `k < 4`. -/
def calculate_mean_points (sorted_gc : List GC) (k : Fin 4) : Pt :=
  let p1 := (sorted_gc.getD (2 * k.val) default).position
  let p2 := (sorted_gc.getD (2 * k.val + 1) default).position
  ((p1.1 + p2.1) / 2, (p1.2 + p2.2) / 2)

/-!
## Convergence tables (`src/pairs/compute_convergence_tables.py`,
`src/pairs/complete_meeting_analysis.py`)

`pendulum_dynamics(state, control)` and `np.linalg.norm` are external; the
tables are parametrized by both.
-/

/-- The external continuous dynamics `PendulumSystem.pendulum_dynamics`. -/
abbrev Dyn := Pt → ℚ → Pt

/-- The external Euclidean norm `np.linalg.norm` of a 2-vector. -/
abbrev NormFn := Pt → ℚ

/-- Distance below which a closing rate is reported as `0.0`. -/
def eps_dist : ℚ := 1 / 10 ^ 10

/-- Closing-rate threshold: rates below `-eps_conv` mark approaching pairs. -/
def eps_conv : ℚ := 1 / 10 ^ 6

/-- The grandchild-grandchild closing rate computed inside the fill loop of
`compute_distance_derivative_table`: `(r1-r2) . (s1*v1 - s2*v2) / |r1-r2|`
with raw dynamics `v` and time-direction signs `s`, `0.0` when the distance
is below `1e-10`. -/
def rate_gc_gc (dyn : Dyn) (norm : NormFn) (a b : GC) : ℚ :=
  let r_diff := psub a.position b.position
  let v_diff := psub (psmul (rsign a.dt) (dyn a.position a.control))
                     (psmul (rsign b.dt) (dyn b.position b.control))
  if norm r_diff < eps_dist then 0 else pdot r_diff v_diff / norm r_diff

/-- `compute_distance_derivative_table`: the `n x n` table is
zero-initialized, entries `(i, j)` with `i < j` are filled with the rate and
mirrored to `(j, i)`; the diagonal stays `0`. -/
def compute_distance_derivative_table (dyn : Dyn) (norm : NormFn)
    (grandchildren : List GC) (i j : ℕ) : ℚ :=
  if i = j then 0
  else
    match grandchildren.get? (min i j), grandchildren.get? (max i j) with
    | some a, some b => rate_gc_gc dyn norm a b
    | _, _ => 0

/-- One entry of `find_converging_grandchild_pairs`. -/
structure ConvPair where
  gc_i : ℕ
  gc_j : ℕ
  velocity : ℚ
deriving DecidableEq

/-- `find_converging_grandchild_pairs`: collect the upper-triangle entries
`(i, j)`, `i < j`, with closing rate below `-1e-6`, then sort them by rate
ascending (fastest-approaching first; Python's stable sort). -/
def find_converging_grandchild_pairs (table : ℕ → ℕ → ℚ) (n : ℕ) :
    List ConvPair :=
  let ps := (List.range n).flatMap fun i =>
    ((List.range n).filter (fun j => i < j)).filterMap fun j =>
      if table i j < -eps_conv then some ⟨i, j, table i j⟩ else none
  List.insertionSort (fun x y => x.velocity ≤ y.velocity) ps

/-- The grandchild-to-static-parent closing rate of
`compute_grandchild_parent_convergence_table`: the parent does not evolve,
so `v_diff` is just the grandchild's signed raw dynamics. -/
def rate_gc_static (dyn : Dyn) (norm : NormFn) (gc : GC) (parent_pos : Pt) :
    ℚ :=
  let r_diff := psub gc.position parent_pos
  let v_diff := psmul (rsign gc.dt) (dyn gc.position gc.control)
  if norm r_diff < eps_dist then 0 else pdot r_diff v_diff / norm r_diff

/-- `compute_grandchild_parent_convergence_table`: `NaN` (modelled `none`)
on a grandchild's own parent, otherwise the static-parent rate. -/
def compute_grandchild_parent_convergence_table (dyn : Dyn) (norm : NormFn)
    (grandchildren : List GC) (children : List Child) (g p : ℕ) :
    Option ℚ :=
  match grandchildren.get? g, children.get? p with
  | some gc, some par =>
    if gc.parent_idx = p then none
    else some (rate_gc_static dyn norm gc par.position)
  | _, _ => none

/-- The grandchild-to-foreign-parent table built inline by
`complete_meeting_analysis` (step 2): unlike
`compute_grandchild_parent_convergence_table`, the parent's velocity is its
own signed raw dynamics `sign(parent.dt) * dynamics(parent)`, not zero. -/
def meeting_analysis_gc_parent_table (dyn : Dyn) (norm : NormFn)
    (grandchildren : List GC) (children : List Child) (g p : ℕ) :
    Option ℚ :=
  match grandchildren.get? g, children.get? p with
  | some gc, some par =>
    if gc.parent_idx = p then none
    else some (
      let r_diff := psub gc.position par.position
      let v_diff := psub (psmul (rsign gc.dt) (dyn gc.position gc.control))
                         (psmul (rsign par.dt) (dyn par.position par.control))
      if norm r_diff < eps_dist then 0 else pdot r_diff v_diff / norm r_diff)
  | _, _ => none

/-!
## Chronology-based pair extraction
(`src/pairs/extract_pairs_from_chronology.py`)

A meeting record keeps the fields the extraction logic reads: the partner
kind (`'grandchild'` or `'parent'`), the partner index and the achieved
distance.
-/

/-- The `'type'` field of a meeting. -/
inductive MType where
  | grandchild
  | parent
deriving DecidableEq

/-- A chronology meeting record. -/
structure Meeting where
  mtype : MType
  partner_idx : ℕ
  distance : ℚ
deriving DecidableEq

/-- The ultra-close acceptance threshold `1e-6` of the extraction. -/
def ultra_close : ℚ := 1 / 10 ^ 6

/-- The `best_grandchild_meeting` update: keep the strictly closer meeting
(`distance < best['distance']`), the earlier one on ties. -/
def bUpd (best : Option Meeting) (m : Meeting) : Option Meeting :=
  match best with
  | none => some m
  | some b => if m.distance < b.distance then some m else b

/-- The inner scan of `extract_pairs_from_chronology` over one
grandchild's chronology: accept the first still-unpaired grandchild meeting
below the ultra-close threshold immediately; on an ultra-close parent
meeting stop and return the best still-unpaired grandchild meeting seen so
far; at the end of the list return that best. -/
def scan_meetings (used : Finset ℕ) : Option Meeting → List Meeting →
    Option Meeting
  | best, [] => best
  | best, m :: ms =>
    match m.mtype with
    | MType.grandchild =>
      if m.partner_idx ∉ used then
        if m.distance < ultra_close then some m
        else scan_meetings used (bUpd best m) ms
      else scan_meetings used best ms
    | MType.parent =>
      if m.distance < ultra_close then best
      else scan_meetings used best ms

/-- The outer loop of `extract_pairs_from_chronology`: grandchildren in
index order, skipping already-paired ones; a selected meeting forms the pair
`(g, partner, meeting)` and marks both indices used. -/
def extract_loop (chron : ℕ → List Meeting) :
    List ℕ → List (ℕ × ℕ × Meeting) → Finset ℕ → List (ℕ × ℕ × Meeting)
  | [], pairs, _ => pairs
  | g :: rest, pairs, used =>
    if g ∈ used then extract_loop chron rest pairs used
    else
      match scan_meetings used none (chron g) with
      | none => extract_loop chron rest pairs used
      | some m => extract_loop chron rest (pairs ++ [(g, m.partner_idx, m)])
          (insert m.partner_idx (insert g used))

/-- `extract_pairs_from_chronology`: iterate over the chronology's keys in
ascending sorted order (`sorted(chronology.keys())`), with an initially
empty pair list and used set. -/
def extract_pairs_from_chronology (keys : List ℕ)
    (chron : ℕ → List Meeting) : List (ℕ × ℕ × Meeting) :=
  extract_loop chron (List.insertionSort (· ≤ ·) keys) [] ∅

/-- A meeting is a still-available grandchild meeting: grandchild type with
a partner not yet used. -/
def availB (used : Finset ℕ) (m : Meeting) : Bool :=
  (m.mtype == MType.grandchild) && decide (m.partner_idx ∉ used)

/-- A meeting triggering immediate acceptance: available and ultra-close. -/
def ultraB (used : Finset ℕ) (m : Meeting) : Bool :=
  availB used m && decide (m.distance < ultra_close)

/-- A meeting triggering the stop rule: a parent meeting ultra-close. -/
def stopB (m : Meeting) : Bool :=
  (m.mtype == MType.parent) && decide (m.distance < ultra_close)

/-- The best (smallest-distance, earliest on ties) still-available
grandchild meeting of a list. -/
def best_available (used : Finset ℕ) (l : List Meeting) : Option Meeting :=
  (l.filter (availB used)).foldl bUpd none

/-!
## Per-pair step-size optimizers (`src/pairs_3/optimize_grandchild_pairs.py`)

The scipy solvers are external; each tried method is modelled by its
returned result (`none` for a raised exception).  The solver result is
*not* trusted: the code re-checks it, and those checks are what claims are
about.
-/

/-- A result of a 2-D scipy `minimize` call: nominal success flag, the
point `x`, and the reported objective value `fun`. -/
structure SolverResult2 where
  success : Bool
  x1 : ℚ
  x2 : ℚ
  fval : ℚ
deriving DecidableEq

/-- A result of a 1-D scipy `minimize_scalar` call. -/
structure SolverResult1 where
  success : Bool
  x : ℚ
  fval : ℚ
deriving DecidableEq

/-- The signed dt range of a branch: the raw bounds for a forward branch,
the negated-and-swapped bounds for a backward branch. -/
def signed_bounds (original_dt : ℚ) (dt_bounds : ℚ × ℚ) : ℚ × ℚ :=
  if 0 < original_dt then dt_bounds else (-dt_bounds.2, -dt_bounds.1)

/-- The endpoint-distance objective of a grandchild pair: one integrator
step from each parent, then the norm of the difference. -/
def pair_distance_function (step : Step) (norm : NormFn) (p_i p_j : Pt)
    (u_i u_j : ℚ) (dt_i dt_j : ℚ) : ℚ :=
  norm (psub (step p_i u_i dt_i) (step p_j u_j dt_j))

/-- `min(parent_distances)` over the children (root-to-child distances). -/
def min_parent_distance (norm : NormFn) (children : List Child) (root : Pt) :
    ℚ :=
  match children.map (fun c => norm (psub c.position root)) with
  | [] => 0
  | d :: ds => ds.foldl min d

/-- The method loop of `optimize_grandchild_pair_distance`: each tried
method's solver outcome is accepted as the new best only if it reports
success, its point is inside both signed bounds, the recomputed distance
at its point satisfies the optional constraint, and its reported value
beats the best distance so far (initially infinite). -/
def try_methods (df : ℚ → ℚ → ℚ) (b_i b_j : ℚ × ℚ) (dc : Option ℚ) :
    List (Option SolverResult2) → Option (SolverResult2 × ℚ) →
    Option (SolverResult2 × ℚ)
  | [], best => best
  | none :: rest, best => try_methods df b_i b_j dc rest best
  | some r :: rest, best =>
    let in_bounds := b_i.1 ≤ r.x1 ∧ r.x1 ≤ b_i.2 ∧ b_j.1 ≤ r.x2 ∧
      r.x2 ≤ b_j.2
    let distance_ok := ∀ c ∈ dc, df r.x1 r.x2 ≤ c
    let better := ∀ bd ∈ (best.map Prod.snd), r.fval < bd
    if r.success ∧ in_bounds ∧ distance_ok ∧ better then
      try_methods df b_i b_j dc rest (some (r, r.fval))
    else try_methods df b_i b_j dc rest best

/-- The outcome of a per-pair optimization: the success dict (with its
`min_distance`, the two optimal dts and the final positions) or the failure
dict with its error tag. -/
inductive PairOptResult where
  | failed (error : String)
  | ok (min_distance optimal_dt_i optimal_dt_j : ℚ)
      (final_position_i final_position_j : Pt)
deriving DecidableEq

/-- `optimize_grandchild_pair_distance`: compute the optional distance
constraint (a tenth of the minimal root-to-child distance when the root is
supplied), the signed bounds from each grandchild's original dt sign, run
the method loop, then re-check bounds and time-direction signs before
returning success. -/
def optimize_grandchild_pair_distance (step : Step) (norm : NormFn)
    (grandchildren : List GC) (children : List Child) (gc_i_idx gc_j_idx : ℕ)
    (dt_bounds : ℚ × ℚ) (root_position : Option Pt)
    (runs : List (Option SolverResult2)) : PairOptResult :=
  let gc_i := grandchildren.getD gc_i_idx default
  let gc_j := grandchildren.getD gc_j_idx default
  let distance_constraint :=
    root_position.map (fun rp => min_parent_distance norm children rp / 10)
  let parent_i_pos := (children.getD gc_i.parent_idx default).position
  let parent_j_pos := (children.getD gc_j.parent_idx default).position
  let b_i := signed_bounds gc_i.dt dt_bounds
  let b_j := signed_bounds gc_j.dt dt_bounds
  let df := pair_distance_function step norm parent_i_pos parent_j_pos
    gc_i.control gc_j.control
  match try_methods df b_i b_j distance_constraint runs none with
  | none => PairOptResult.failed "no method succeeded"
  | some (r, best_distance) =>
    if best_distance < 100000 then
      if ¬(b_i.1 ≤ r.x1 ∧ r.x1 ≤ b_i.2) then PairOptResult.failed
        "dt_i violation"
      else if ¬(b_j.1 ≤ r.x2 ∧ r.x2 ≤ b_j.2) then PairOptResult.failed
        "dt_j violation"
      else if (0 < gc_i.dt ∧ r.x1 ≤ 0) ∨ (gc_i.dt < 0 ∧ 0 ≤ r.x1) then
        PairOptResult.failed "time direction violation i"
      else if (0 < gc_j.dt ∧ r.x2 ≤ 0) ∨ (gc_j.dt < 0 ∧ 0 ≤ r.x2) then
        PairOptResult.failed "time direction violation j"
      else PairOptResult.ok best_distance r.x1 r.x2
        (step parent_i_pos gc_i.control r.x1)
        (step parent_j_pos gc_j.control r.x2)
    else PairOptResult.failed "no method succeeded"

/-- The outcome of the 1-D grandchild-to-parent optimization. -/
inductive ParentOptResult where
  | failed (error : String)
  | ok (min_distance optimal_dt : ℚ) (final_position : Pt)
deriving DecidableEq

/-- `optimize_grandchild_parent_distance`: a single bounded
`minimize_scalar` run whose nominal success flag is returned as-is — the
returned point is not re-checked against the bounds or the time
direction. -/
def optimize_grandchild_parent_distance (step : Step) (norm : NormFn)
    (grandchildren : List GC) (children : List Child) (gc_idx parent_idx : ℕ)
    (dt_bounds : ℚ × ℚ) (run : Option SolverResult1) : ParentOptResult :=
  let gc := grandchildren.getD gc_idx default
  let gc_parent_pos := (children.getD gc.parent_idx default).position
  match run with
  | none => ParentOptResult.failed "exception"
  | some r =>
    if r.success then
      ParentOptResult.ok r.fval r.x (step gc_parent_pos gc.control r.x)
    else ParentOptResult.failed "failed"

/-!
## The area evaluator and the hard-constrained objective
(`src/area_opt/tree_area_evaluator.py`, `src/area_opt/optimize_tree_area.py`,
`src/area_opt/create_distance_constraints.py`)

`TreeAreaEvaluator.__init__` extracts from the tree only each spore's
control and dt *sign*; `area(dt_vector)` then recomputes every position
from the magnitudes `|dt_vector|` and sums the areas of the 8
root-child-grandchild triangles.  The whole body runs under
`try/except: return 0.0`, so integrator exceptions are modelled by a
fallible step function. -/

/-- Structural child info kept by `TreeAreaEvaluator`. -/
structure CInfo where
  control : ℚ
  dt_sign : ℚ
deriving DecidableEq, Inhabited

/-- Structural grandchild info kept by `TreeAreaEvaluator`. -/
structure GInfo where
  parent_idx : ℕ
  control : ℚ
  dt_sign : ℚ
deriving DecidableEq, Inhabited

/-- The `children_info` extraction of `TreeAreaEvaluator.__init__`. -/
def mk_children_info (children : List Child) : List CInfo :=
  children.map fun c => { control := c.control, dt_sign := rsign c.dt }

/-- The `grandchildren_info` extraction of `TreeAreaEvaluator.__init__`. -/
def mk_grandchildren_info (grandchildren : List GC) : List GInfo :=
  grandchildren.map fun g =>
    { parent_idx := g.parent_idx, control := g.control,
      dt_sign := rsign g.dt }

/-- The area of one root-child-grandchild triangle, as in
`_calculate_total_area_numba`. -/
def triangle_area (p1 p2 p3 : Pt) : ℚ :=
  (1/2) * |p1.1 * (p2.2 - p3.2) + p2.1 * (p3.2 - p1.2) +
           p3.1 * (p1.2 - p2.2)|

/-- `_calculate_total_area_numba`: the sum over all grandchildren of the
triangle area root - parent child - grandchild. -/
def calculate_total_area_numba (root_pos : Pt) (children_pos : List Pt)
    (grandchildren_pos : List Pt) (parent_indices : List ℕ) : ℚ :=
  ((grandchildren_pos.zip parent_indices).map
    (fun pp => triangle_area root_pos (children_pos.getD pp.2 (0, 0))
      pp.1)).sum

/-- A fallible external integrator step (a raised exception is `error`). -/
abbrev StepE := Pt → ℚ → ℚ → Except String Pt

/-- The never-failing lift of a total step function. -/
def liftStep (step : Step) : StepE := fun s u dt => Except.ok (step s u dt)

/-- The child-position update loop of `TreeAreaEvaluator.area`, with the
running index into `dt_children`; a missing index is an `IndexError`. -/
def compute_children_positions (stepE : StepE) (root_pos : Pt) :
    ℕ → List CInfo → List ℚ → Except String (List Pt)
  | _, [], _ => Except.ok []
  | i, ci :: rest, dt_children =>
    match dt_children.get? i with
    | none => Except.error "IndexError"
    | some d => do
      let p ← stepE root_pos ci.control (d * ci.dt_sign)
      let ps ← compute_children_positions stepE root_pos (i + 1) rest
        dt_children
      pure (p :: ps)

/-- The grandchild-position update loop of `TreeAreaEvaluator.area`. -/
def compute_grandchildren_positions (stepE : StepE)
    (children_pos : List Pt) :
    ℕ → List GInfo → List ℚ → Except String (List Pt)
  | _, [], _ => Except.ok []
  | i, gi :: rest, dt_grandchildren =>
    match children_pos.get? gi.parent_idx, dt_grandchildren.get? i with
    | some pp, some d => do
      let p ← stepE pp gi.control (d * gi.dt_sign)
      let ps ← compute_grandchildren_positions stepE children_pos (i + 1)
        rest dt_grandchildren
      pure (p :: ps)
    | _, _ => Except.error "IndexError"

/-- The body of `TreeAreaEvaluator.area` inside its `try` block: validate
the 12-element length, take magnitudes, recompute all positions, sum the
triangle areas. -/
def tree_area_evaluator_area_checked (stepE : StepE) (root_pos : Pt)
    (children_info : List CInfo) (grandchildren_info : List GInfo)
    (dt_vector : List ℚ) : Except String ℚ := do
  if dt_vector.length ≠ 12 then
    throw "dt_vector must contain 12 elements"
  let dt_children := (dt_vector.take 4).map (fun x => |x|)
  let dt_grandchildren := (dt_vector.drop 4).map (fun x => |x|)
  let children_pos ← compute_children_positions stepE root_pos 0
    children_info dt_children
  let grandchildren_pos ← compute_grandchildren_positions stepE children_pos
    0 grandchildren_info dt_grandchildren
  pure (calculate_total_area_numba root_pos children_pos grandchildren_pos
    (grandchildren_info.map (fun g => g.parent_idx)))

/-- `TreeAreaEvaluator.area`: the checked body under
`try/except: return 0.0`. -/
def tree_area_evaluator_area (stepE : StepE) (root_pos : Pt)
    (children_info : List CInfo) (grandchildren_info : List GInfo)
    (dt_vector : List ℚ) : ℚ :=
  match tree_area_evaluator_area_checked stepE root_pos children_info
    grandchildren_info dt_vector with
  | Except.ok v => v
  | Except.error _ => 0

/-- `objective_function` of `optimize_tree_area`: minus the evaluator area
at the componentwise absolute value of the dt-vector.  (Its own
`try/except: return 1e6` is unreachable because the evaluator catches
everything itself.) -/
def objective_function (stepE : StepE) (root_pos : Pt)
    (children_info : List CInfo) (grandchildren_info : List GInfo)
    (dt_vector : List ℚ) : ℚ :=
  -(tree_area_evaluator_area stepE root_pos children_info grandchildren_info
    (dt_vector.map (fun x => |x|)))

/-- The position of one grandchild of a constraint pair, recomputed by the
closure of `create_distance_constraints` from the raw dt-vector entries:
one step from the root to its parent, one step from the parent to it. -/
def constraint_pair_position (step : Step) (root_pos : Pt)
    (children_info : List CInfo) (grandchildren_info : List GInfo)
    (idx : ℕ) (dt_vector : List ℚ) : Pt :=
  let dt_children := dt_vector.take 4
  let dt_grandchildren := dt_vector.drop 4
  let gi := grandchildren_info.getD idx default
  let ci := children_info.getD gi.parent_idx default
  let parent_pos := step root_pos ci.control
    (dt_children.getD gi.parent_idx 0 * ci.dt_sign)
  step parent_pos gi.control (dt_grandchildren.getD idx 0 * gi.dt_sign)

/-- One scipy inequality-constraint function built by
`create_distance_constraints` for the pair `(gc_i, gc_j)`: recompute both
grandchildren's positions from the raw dt-vector entries and return
`constraint_distance - distance`; nonnegative means satisfied. -/
def constraint_function (step : Step) (norm : NormFn) (root_pos : Pt)
    (children_info : List CInfo) (grandchildren_info : List GInfo)
    (gc_i gc_j : ℕ) (constraint_distance : ℚ) (dt_vector : List ℚ) : ℚ :=
  constraint_distance - norm (psub
    (constraint_pair_position step root_pos children_info
      grandchildren_info gc_i dt_vector)
    (constraint_pair_position step root_pos children_info
      grandchildren_info gc_j dt_vector))

/-- The pure child-position recomputation of the evaluator, for relating
the `Except`-threaded loop to a total integrator. -/
def eval_children_positions (step : Step) (root_pos : Pt) :
    ℕ → List CInfo → List ℚ → List Pt
  | _, [], _ => []
  | i, ci :: rest, dtc =>
    step root_pos ci.control (dtc.getD i 0 * ci.dt_sign) ::
      eval_children_positions step root_pos (i + 1) rest dtc

/-- The pure grandchild-position recomputation of the evaluator. -/
def eval_grandchildren_positions (step : Step) (children_pos : List Pt) :
    ℕ → List GInfo → List ℚ → List Pt
  | _, [], _ => []
  | i, gi :: rest, dtg =>
    step (children_pos.getD gi.parent_idx (0, 0)) gi.control
      (dtg.getD i 0 * gi.dt_sign) ::
      eval_grandchildren_positions step children_pos (i + 1) rest dtg

/-!
## Theorems
-/

/-- **C9** — The quadrilateral area computed by the shoelace formula of
`TreeEvaluator.area` on the 4 pair-mean points is invariant under cyclic
relabeling (rotation) of the 4 points, and equals zero whenever the 4 mean
points are collinear (all of the form `a + t_i * d` on one line). -/
theorem C9_shoelace_cyclic_invariant_and_collinear_zero :
    ∀ (mp : Fin 4 → Pt) (a d : Pt) (t : Fin 4 → ℚ),
      shoelace_area (fun i => mp (i + 1)) = shoelace_area mp ∧
      ((∀ i, mp i = (a.1 + t i * d.1, a.2 + t i * d.2)) →
        shoelace_area mp = 0) := by
  intro mp a d t
  have f1 : ((0 : Fin 4) + 1) = 1 := rfl
  have f2 : ((1 : Fin 4) + 1) = 2 := rfl
  have f3 : ((2 : Fin 4) + 1) = 3 := rfl
  have f4 : ((3 : Fin 4) + 1) = 0 := rfl
  have g1 : ((0 : Fin 4) - 1) = 3 := rfl
  have g2 : ((1 : Fin 4) - 1) = 0 := rfl
  have g3 : ((2 : Fin 4) - 1) = 1 := rfl
  have g4 : ((3 : Fin 4) - 1) = 2 := rfl
  have k1 : ((0 : Fin 4) - 1 + 1) = 0 := rfl
  have k2 : ((1 : Fin 4) - 1 + 1) = 1 := rfl
  have k3 : ((2 : Fin 4) - 1 + 1) = 2 := rfl
  have k4 : ((3 : Fin 4) - 1 + 1) = 3 := rfl
  constructor
  · unfold shoelace_area
    congr 1
    simp only [Fin.sum_univ_four, f1, f2, f3, f4, g1, g2, g3, g4,
      k1, k2, k3, k4]
    ring
  · intro h
    have hx : ∀ i, (mp i).1 = a.1 + t i * d.1 := fun i => by rw [h i]
    have hy : ∀ i, (mp i).2 = a.2 + t i * d.2 := fun i => by rw [h i]
    have h0 : (∑ i : Fin 4, (mp i).1 * (mp (i - 1)).2) -
        (∑ i : Fin 4, (mp i).2 * (mp (i - 1)).1) = 0 := by
      simp only [Fin.sum_univ_four, g1, g2, g3, g4, hx, hy]
      ring
    unfold shoelace_area
    rw [h0, abs_zero, mul_zero]

/-- The diagonal line used by `C9_witness`. -/
def mpLine : Fin 4 → Pt := fun j => ((j : ℚ), (j : ℚ))

/-- Concrete instance of `C9_shoelace_cyclic_invariant_and_collinear_zero`
at 4 collinear points `(i, i)` on the diagonal. -/
theorem C9_witness :
    shoelace_area (fun i => mpLine (i + 1)) = shoelace_area mpLine ∧
    shoelace_area mpLine = 0 := by
  refine ⟨(C9_shoelace_cyclic_invariant_and_collinear_zero mpLine (0, 0)
    (1, 1) (fun j => (j : ℚ))).1,
    (C9_shoelace_cyclic_invariant_and_collinear_zero mpLine (0, 0) (1, 1)
    (fun j => (j : ℚ))).2 ?_⟩
  intro i
  fin_cases i <;> norm_num [mpLine]

/-- **C10** — `TreeAreaEvaluator.area` is total and never raises: on a
dt-vector whose length is not 12 it returns the sentinel `0.0` (the
explicit `ValueError` is caught by the method's own `except` clause), on
any error raised while recomputing positions or the area it returns `0.0`,
and otherwise it returns the computed triangle-sum area, so a malformed
dt-vector is indistinguishable from a zero-area tree at this interface. -/
theorem C10_area_total_returns_zero_sentinel :
    ∀ (stepE : StepE) (root_pos : Pt) (children_info : List CInfo)
      (grandchildren_info : List GInfo) (dt_vector : List ℚ),
      (dt_vector.length ≠ 12 →
        tree_area_evaluator_area stepE root_pos children_info
          grandchildren_info dt_vector = 0) ∧
      (∀ e, tree_area_evaluator_area_checked stepE root_pos children_info
          grandchildren_info dt_vector = Except.error e →
        tree_area_evaluator_area stepE root_pos children_info
          grandchildren_info dt_vector = 0) ∧
      (∀ v, tree_area_evaluator_area_checked stepE root_pos children_info
          grandchildren_info dt_vector = Except.ok v →
        tree_area_evaluator_area stepE root_pos children_info
          grandchildren_info dt_vector = v) := by
  intro stepE root_pos children_info grandchildren_info dt_vector
  refine ⟨?_, ?_, ?_⟩
  · intro h
    unfold tree_area_evaluator_area tree_area_evaluator_area_checked
    simp [h, throw, throwThe, MonadExceptOf.throw, Bind.bind, Except.bind]
  · intro e he
    unfold tree_area_evaluator_area
    rw [he]
  · intro v hv
    unfold tree_area_evaluator_area
    rw [hv]

/-- Concrete instances of `C10_area_total_returns_zero_sentinel`: a
3-element dt-vector gives area `0.0`, and a 12-element dt-vector whose
first integrator step raises gives area `0.0`. -/
theorem C10_witness :
    tree_area_evaluator_area (liftStep (fun _ _ _ => (0, 0))) (0, 0) [] []
      [1, 2, 3] = 0 ∧
    tree_area_evaluator_area (fun _ _ _ => Except.error "boom") (0, 0)
      [{ control := 1, dt_sign := 1 }] [] [1, 1, 1, 1, 1, 1, 1, 1, 1, 1, 1, 1]
      = 0 := by
  constructor
  · exact (C10_area_total_returns_zero_sentinel _ _ _ _ _).1 (by norm_num)
  · refine (C10_area_total_returns_zero_sentinel _ _ _ _ _).2.1 "boom" ?_
    rfl

/-- **C7 (amended)** — In `compute_grandchild_parent_convergence_table` the
entry for a grandchild's own parent is `NaN` (`none`), and every other
entry is computed with the parent's velocity treated as zero: it equals
`(r_gc - r_parent) . (s * v_gc) / |r_gc - r_parent|` with `s` the sign of
the grandchild's dt and `v_gc` its raw dynamics, and `0` when the distance
is below `1e-10`.  (The grandchild-parent table built inline by
`complete_meeting_analysis` does *not* satisfy this: it subtracts the
parent's signed dynamics, see the counterexample.) -/
theorem C7_parent_table_nan_and_static_velocity :
    ∀ (dyn : Dyn) (norm : NormFn) (grandchildren : List GC)
      (children : List Child) (g p : ℕ) (gc : GC) (par : Child),
      grandchildren.get? g = some gc → children.get? p = some par →
      (gc.parent_idx = p →
        compute_grandchild_parent_convergence_table dyn norm grandchildren
          children g p = none) ∧
      (gc.parent_idx ≠ p →
        compute_grandchild_parent_convergence_table dyn norm grandchildren
          children g p =
        some (if norm (psub gc.position par.position) < eps_dist then 0
          else pdot (psub gc.position par.position)
            (psmul (rsign gc.dt) (dyn gc.position gc.control)) /
            norm (psub gc.position par.position))) := by
  intro dyn norm grandchildren children g p gc par hg hp
  constructor
  · intro hown
    unfold compute_grandchild_parent_convergence_table
    rw [hg, hp]
    simp [hown]
  · intro hforeign
    unfold compute_grandchild_parent_convergence_table rate_gc_static
    rw [hg, hp]
    simp [hforeign]

/-- The constant dynamics used by the C7 refutation and witness. -/
def dynCex : Dyn := fun _ _ => (1, 0)

/-- The constant norm used by the C7 refutation and witness. -/
def normCex : NormFn := fun _ => 1

/-- The single grandchild of the C7 refutation: at the origin, moving
forward, child of parent 0. -/
def gcCex : GC :=
  { position := (0, 0), parent_idx := 0, local_idx := 0, global_idx := 0,
    control := 0, dt := 1 }

/-- The two children of the C7 refutation; parent 1 sits at `(1, 0)` and
also moves forward. -/
def childrenCex : List Child :=
  [{ position := (5, 5), control := 1, dt := 1, child_idx := 0 },
   { position := (1, 0), control := 0, dt := 1, child_idx := 1 }]

/-- **C7 counterexample** — the grandchild-to-foreign-parent table built by
`complete_meeting_analysis` does not treat the parent's velocity as zero:
at this input its entry is `0` (grandchild and parent velocities cancel),
while the formula of the claim gives `-1`. -/
theorem C7_counterexample :
    meeting_analysis_gc_parent_table dynCex normCex [gcCex] childrenCex 0 1
      ≠
    some (if normCex (psub gcCex.position (1, 0)) < eps_dist then 0
      else pdot (psub gcCex.position (1, 0))
        (psmul (rsign gcCex.dt) (dynCex gcCex.position gcCex.control)) /
        normCex (psub gcCex.position (1, 0))) := by
  have h1 : meeting_analysis_gc_parent_table dynCex normCex [gcCex]
      childrenCex 0 1 = some 0 := by
    unfold meeting_analysis_gc_parent_table
    norm_num [gcCex, childrenCex, dynCex, normCex, psub, psmul, pdot, rsign,
      eps_dist]
  have h2 : (if normCex (psub gcCex.position (1, 0)) < eps_dist then (0:ℚ)
      else pdot (psub gcCex.position (1, 0))
        (psmul (rsign gcCex.dt) (dynCex gcCex.position gcCex.control)) /
        normCex (psub gcCex.position (1, 0))) = -1 := by
    norm_num [gcCex, dynCex, normCex, psub, psmul, pdot, rsign, eps_dist]
  rw [h1, h2]
  norm_num

/-- Concrete instance of `C7_parent_table_nan_and_static_velocity`: in the
dedicated table the same entry is `NaN` on the own parent and `-1` (static
parent) on the foreign parent. -/
theorem C7_witness :
    compute_grandchild_parent_convergence_table dynCex normCex [gcCex]
      childrenCex 0 0 = none ∧
    compute_grandchild_parent_convergence_table dynCex normCex [gcCex]
      childrenCex 0 1 = some (-1) := by
  constructor
  · exact (C7_parent_table_nan_and_static_velocity dynCex normCex [gcCex]
      childrenCex 0 0 gcCex _ rfl rfl).1 rfl
  · have h := (C7_parent_table_nan_and_static_velocity dynCex normCex
      [gcCex] childrenCex 0 1 gcCex
      { position := (1, 0), control := 0, dt := 1, child_idx := 1 }
      rfl rfl).2 (by norm_num [gcCex])
    rw [h]
    norm_num [gcCex, dynCex, normCex, psub, psmul, pdot, rsign, eps_dist]

/-- The closing rate is symmetric in its two grandchildren whenever the
norm does not see the sign of its argument. -/
theorem rate_gc_gc_comm (dyn : Dyn) (norm : NormFn) (a b : GC)
    (hnorm : ∀ u v : Pt, norm (psub u v) = norm (psub v u)) :
    rate_gc_gc dyn norm b a = rate_gc_gc dyn norm a b := by
  simp only [rate_gc_gc]
  rw [hnorm b.position a.position]
  have hdot : pdot (psub b.position a.position)
      (psub (psmul (rsign b.dt) (dyn b.position b.control))
        (psmul (rsign a.dt) (dyn a.position a.control))) =
      pdot (psub a.position b.position)
      (psub (psmul (rsign a.dt) (dyn a.position a.control))
        (psmul (rsign b.dt) (dyn b.position b.control))) := by
    simp only [pdot, psub, psmul]
    ring
  rw [hdot]

/-- **C6** — Every off-diagonal entry `(i, j)` of the grandchild-grandchild
closing-rate table equals
`(r1-r2) . (s1*v1 - s2*v2) / |r1-r2|` (with `0` when the distance is below
`1e-10`, folded into the right-hand side), the table is symmetric, and
`find_converging_grandchild_pairs` selects exactly the upper-triangle pairs
with rate below `-1e-6`.  The norm is assumed insensitive to the sign of
its argument, as the Euclidean norm is. -/
theorem C6_distance_derivative_table_formula_symm_selection :
    ∀ (dyn : Dyn) (norm : NormFn) (grandchildren : List GC) (i j : ℕ)
      (a b : GC),
      (∀ u v : Pt, norm (psub u v) = norm (psub v u)) →
      grandchildren.get? i = some a → grandchildren.get? j = some b →
      i ≠ j →
      (compute_distance_derivative_table dyn norm grandchildren i j =
        (if norm (psub a.position b.position) < eps_dist then 0
         else pdot (psub a.position b.position)
           (psub (psmul (rsign a.dt) (dyn a.position a.control))
             (psmul (rsign b.dt) (dyn b.position b.control))) /
           norm (psub a.position b.position))) ∧
      compute_distance_derivative_table dyn norm grandchildren i j =
        compute_distance_derivative_table dyn norm grandchildren j i ∧
      (∀ n, i < j → j < n →
        (((⟨i, j, compute_distance_derivative_table dyn norm grandchildren
            i j⟩ : ConvPair) ∈
          find_converging_grandchild_pairs
            (compute_distance_derivative_table dyn norm grandchildren) n) ↔
         compute_distance_derivative_table dyn norm grandchildren i j <
           -eps_conv)) := by
  intro dyn norm grandchildren i j a b hnorm ha hb hij
  have hsymm : compute_distance_derivative_table dyn norm grandchildren i j
      = compute_distance_derivative_table dyn norm grandchildren j i := by
    unfold compute_distance_derivative_table
    rw [if_neg hij, if_neg (Ne.symm hij), min_comm j i, max_comm j i]
  have hformula : compute_distance_derivative_table dyn norm grandchildren
      i j =
      (if norm (psub a.position b.position) < eps_dist then 0
       else pdot (psub a.position b.position)
         (psub (psmul (rsign a.dt) (dyn a.position a.control))
           (psmul (rsign b.dt) (dyn b.position b.control))) /
         norm (psub a.position b.position)) := by
    have hrate : (if norm (psub a.position b.position) < eps_dist then (0:ℚ)
        else pdot (psub a.position b.position)
          (psub (psmul (rsign a.dt) (dyn a.position a.control))
            (psmul (rsign b.dt) (dyn b.position b.control))) /
          norm (psub a.position b.position)) = rate_gc_gc dyn norm a b := by
      unfold rate_gc_gc
      rfl
    rw [hrate]
    rcases Nat.lt_or_ge i j with hlt | hge
    · unfold compute_distance_derivative_table
      rw [if_neg hij, min_eq_left (Nat.le_of_lt hlt),
        max_eq_right (Nat.le_of_lt hlt), ha, hb]
    · have hlt : j < i := Nat.lt_of_le_of_ne hge (Ne.symm hij)
      unfold compute_distance_derivative_table
      rw [if_neg hij, min_eq_right (Nat.le_of_lt hlt),
        max_eq_left (Nat.le_of_lt hlt), ha, hb]
      exact rate_gc_gc_comm dyn norm a b hnorm
  refine ⟨hformula, hsymm, ?_⟩
  intro n hij' hjn
  unfold find_converging_grandchild_pairs
  rw [List.mem_insertionSort]
  constructor
  · intro hmem
    simp only [List.mem_flatMap, List.mem_filterMap, List.mem_filter,
      List.mem_range] at hmem
    obtain ⟨i', _, j', _, hcond⟩ := hmem
    by_cases hc : compute_distance_derivative_table dyn norm grandchildren
        i' j' < -eps_conv
    · rw [if_pos hc] at hcond
      obtain ⟨h1, h2, _⟩ := ConvPair.mk.injEq .. ▸ (Option.some.injEq _ _
        ▸ hcond)
      rw [← h1, ← h2]
      exact hc
    · rw [if_neg hc] at hcond
      exact absurd hcond (by simp)
  · intro hlt
    simp only [List.mem_flatMap, List.mem_filterMap, List.mem_filter,
      List.mem_range]
    refine ⟨i, by omega, j, ⟨by omega, by simpa using hij'⟩, ?_⟩
    rw [if_pos hlt]

/-- The two approaching grandchildren of the C6 witness. -/
def gcPairCex : List GC :=
  [{ position := (0, 0), parent_idx := 0, local_idx := 0, global_idx := 0,
     control := 0, dt := 1 },
   { position := (1, 0), parent_idx := 1, local_idx := 0, global_idx := 2,
     control := 0, dt := -1 }]

/-- Concrete instance of
`C6_distance_derivative_table_formula_symm_selection`: with constant unit
norm and constant dynamics `(1, 0)`, the two grandchildren (one forward,
one backward) close at rate `-2`; the entry matches the formula, the table
is symmetric, and the pair is selected as approaching. -/
theorem C6_witness :
    compute_distance_derivative_table dynCex normCex gcPairCex 0 1 = -2 ∧
    compute_distance_derivative_table dynCex normCex gcPairCex 0 1 =
      compute_distance_derivative_table dynCex normCex gcPairCex 1 0 ∧
    (⟨0, 1, compute_distance_derivative_table dynCex normCex gcPairCex 0 1⟩
      : ConvPair) ∈ find_converging_grandchild_pairs
        (compute_distance_derivative_table dynCex normCex gcPairCex) 2 := by
  have h := C6_distance_derivative_table_formula_symm_selection dynCex
    normCex gcPairCex 0 1 (gcPairCex.getD 0 default) (gcPairCex.getD 1
    default) (fun u v => rfl) rfl rfl (by norm_num)
  have hval : compute_distance_derivative_table dynCex normCex gcPairCex
      0 1 = -2 := by
    rw [h.1]
    norm_num [gcPairCex, dynCex, normCex, psub, psmul, pdot, rsign,
      eps_dist]
  refine ⟨hval, h.2.1, (h.2.2 2 (by norm_num) (by norm_num)).mpr ?_⟩
  rw [hval]
  norm_num [eps_conv]

/-- A solver outcome surviving the method loop was accepted there: it
reported success, lies in both signed bounds, and its recomputed distance
satisfies the optional constraint. -/
theorem try_methods_accepted (df : ℚ → ℚ → ℚ) (b_i b_j : ℚ × ℚ)
    (dc : Option ℚ) :
    ∀ (runs : List (Option SolverResult2))
      (best : Option (SolverResult2 × ℚ)) (r : SolverResult2) (bd : ℚ),
      try_methods df b_i b_j dc runs best = some (r, bd) →
      best = some (r, bd) ∨
      (r.success = true ∧ (b_i.1 ≤ r.x1 ∧ r.x1 ≤ b_i.2 ∧ b_j.1 ≤ r.x2 ∧
        r.x2 ≤ b_j.2) ∧ (∀ c ∈ dc, df r.x1 r.x2 ≤ c) ∧ bd = r.fval) := by
  intro runs
  induction runs with
  | nil =>
    intro best r bd h
    exact Or.inl h
  | cons hd tl ih =>
    intro best r bd h
    match hd with
    | none => exact ih best r bd h
    | some r' =>
      rw [try_methods] at h
      split_ifs at h with hacc
      · rcases ih _ r bd h with heq | hgood
        · obtain ⟨h1, h2⟩ := Prod.mk.injEq .. ▸ (Option.some.injEq _ _
            ▸ heq)
          right
          subst h1
          exact ⟨by simpa using hacc.1, hacc.2.1, hacc.2.2.1, h2.symm⟩
        · exact Or.inr hgood
      · exact ih best r bd h

/-- **C3 (amended)** — Whenever `optimize_grandchild_pair_distance` returns
a success, the returned dts lie inside the supplied signed bounds, keep the
time-direction sign of the corresponding grandchild's original dt, and, if
the root position (hence a distance constraint) was supplied, the distance
recomputed at the returned dts is at most that constraint; a solver run
whose nominal success fails these post-hoc checks is never returned as a
success.  (The 1-D variant `optimize_grandchild_parent_distance` performs
*no* such re-checks — see the counterexample.) -/
theorem C3_pair_optimizer_success_postconditions :
    ∀ (step : Step) (norm : NormFn) (grandchildren : List GC)
      (children : List Child) (gc_i_idx gc_j_idx : ℕ) (dt_bounds : ℚ × ℚ)
      (root_position : Option Pt) (runs : List (Option SolverResult2))
      (d dt_i dt_j : ℚ) (pos_i pos_j : Pt),
      optimize_grandchild_pair_distance step norm grandchildren children
        gc_i_idx gc_j_idx dt_bounds root_position runs =
        PairOptResult.ok d dt_i dt_j pos_i pos_j →
      ((signed_bounds (grandchildren.getD gc_i_idx default).dt
          dt_bounds).1 ≤ dt_i ∧
        dt_i ≤ (signed_bounds (grandchildren.getD gc_i_idx default).dt
          dt_bounds).2) ∧
      ((signed_bounds (grandchildren.getD gc_j_idx default).dt
          dt_bounds).1 ≤ dt_j ∧
        dt_j ≤ (signed_bounds (grandchildren.getD gc_j_idx default).dt
          dt_bounds).2) ∧
      (0 < (grandchildren.getD gc_i_idx default).dt → 0 < dt_i) ∧
      ((grandchildren.getD gc_i_idx default).dt < 0 → dt_i < 0) ∧
      (0 < (grandchildren.getD gc_j_idx default).dt → 0 < dt_j) ∧
      ((grandchildren.getD gc_j_idx default).dt < 0 → dt_j < 0) ∧
      (∀ rp, root_position = some rp →
        pair_distance_function step norm
          (children.getD (grandchildren.getD gc_i_idx
            default).parent_idx default).position
          (children.getD (grandchildren.getD gc_j_idx
            default).parent_idx default).position
          (grandchildren.getD gc_i_idx default).control
          (grandchildren.getD gc_j_idx default).control dt_i dt_j ≤
        min_parent_distance norm children rp / 10) := by
  intro step norm grandchildren children gc_i_idx gc_j_idx dt_bounds
    root_position runs d dt_i dt_j pos_i pos_j hok
  simp only [optimize_grandchild_pair_distance] at hok
  split at hok
  · exact absurd hok (by simp)
  · rename_i r bd htm
    split_ifs at hok with h1e5 hbi hbj hsi hsj
    · obtain ⟨hd, hx1, hx2, _, _⟩ := PairOptResult.ok.injEq .. ▸ hok
      subst hx1
      subst hx2
      refine ⟨hbi, hbj, ?_, ?_, ?_, ?_, ?_⟩
      · intro hdt
        by_contra hc
        exact hsi (Or.inl ⟨hdt, le_of_not_lt hc⟩)
      · intro hdt
        by_contra hc
        exact hsi (Or.inr ⟨hdt, le_of_not_lt hc⟩)
      · intro hdt
        by_contra hc
        exact hsj (Or.inl ⟨hdt, le_of_not_lt hc⟩)
      · intro hdt
        by_contra hc
        exact hsj (Or.inr ⟨hdt, le_of_not_lt hc⟩)
      · intro rp hrp
        subst hrp
        rcases try_methods_accepted _ _ _ _ runs none r bd htm with hnone |
          hgood
        · exact absurd hnone (by simp)
        · exact hgood.2.2.1
            (min_parent_distance norm children rp / 10) (by simp)

/-- The grandchild of the C3 counterexample: forward in time
(`dt = 0.05`). -/
def gcForward : GC :=
  { position := (0, 0), parent_idx := 0, local_idx := 0, global_idx := 0,
    control := 0, dt := 1/20 }

/-- **C3 counterexample** — `optimize_grandchild_parent_distance` trusts the
solver's nominal success flag: fed a solver result that claims success at
the point `-7`, it returns a success whose dt lies outside the supplied
signed bounds `[0.001, 0.1]` of the forward branch and flips its time
direction. -/
theorem C3_counterexample :
    optimize_grandchild_parent_distance (fun _ _ _ => ((0 : ℚ), (0 : ℚ)))
      normCex [gcForward] childrenCex 0 1 (1/1000, 1/10)
      (some { success := true, x := -7, fval := 5 }) =
      ParentOptResult.ok 5 (-7) (0, 0) ∧
    ¬((signed_bounds gcForward.dt (1/1000, 1/10)).1 ≤ -7 ∧
      (-7 : ℚ) ≤ (signed_bounds gcForward.dt (1/1000, 1/10)).2) ∧
    ¬(0 < (-7 : ℚ)) := by
  refine ⟨rfl, ?_, by norm_num⟩
  rw [signed_bounds, if_pos (by norm_num [gcForward])]
  norm_num

/-- Constantly-zero norm for the C3 witness (every distance constraint is
then trivially met). -/
def normZ : NormFn := fun _ => 0

/-- Concrete instance of `C3_pair_optimizer_success_postconditions`: a
solver result accepted by every check yields a success whose dts respect
bounds, signs, and the distance constraint. -/
theorem C3_witness :
    (0 <
      (1/100 : ℚ)) ∧ (-1/100 : ℚ) < 0 ∧
    pair_distance_function (fun _ _ _ => ((0 : ℚ), (0 : ℚ))) normZ
      (childrenCex.getD 0 default).position
      (childrenCex.getD 1 default).position 0 0 (1/100) (-1/100) ≤
      min_parent_distance normZ childrenCex (0, 0) / 10 := by
  have hok : optimize_grandchild_pair_distance
      (fun _ _ _ => ((0 : ℚ), (0 : ℚ))) normZ gcPairCex childrenCex 0 1
      (1/1000, 1/10) (some (0, 0))
      [some { success := true, x1 := 1/100, x2 := -1/100, fval := 0 }] =
      PairOptResult.ok 0 (1/100) (-1/100) (0, 0) (0, 0) := by
    norm_num [optimize_grandchild_pair_distance, try_methods,
      signed_bounds, gcPairCex, childrenCex, min_parent_distance,
      pair_distance_function, normZ, psub, List.getD, Option.mem_def]
    rw [if_pos (by simp : ∀ (bd : ℚ), (none : Option ℚ) = some bd →
      0 < bd)]
    norm_num
  have h := C3_pair_optimizer_success_postconditions
    (fun _ _ _ => ((0 : ℚ), (0 : ℚ))) normZ gcPairCex childrenCex 0 1
    (1/1000, 1/10) (some (0, 0))
    [some { success := true, x1 := 1/100, x2 := -1/100, fval := 0 }]
    0 (1/100) (-1/100) (0, 0) (0, 0) hok
  refine ⟨h.2.2.1 (by norm_num [gcPairCex, List.getD]),
    h.2.2.2.2.2.1 (by norm_num [gcPairCex, List.getD]), ?_⟩
  have hd := h.2.2.2.2.2.2 (0, 0) rfl
  simpa [gcPairCex, List.getD] using hd

/-- `bUpd` never stores `none`. -/
theorem bUpd_ne_none (b : Option Meeting) (m : Meeting) :
    bUpd b m ≠ none := by
  cases b with
  | none => simp [bUpd]
  | some b0 =>
    simp only [bUpd]
    split_ifs <;> simp

/-- A meeting stored by `bUpd` is the new meeting or was stored before. -/
theorem bUpd_some (b : Option Meeting) (x m : Meeting)
    (h : bUpd b x = some m) : m = x ∨ b = some m := by
  cases b with
  | none =>
    simp only [bUpd, Option.some.injEq] at h
    exact Or.inl h.symm
  | some b0 =>
    simp only [bUpd] at h
    split_ifs at h <;> simp only [Option.some.injEq] at h
    · exact Or.inl h.symm
    · exact Or.inr (by rw [h])

/-- A meeting produced by folding `bUpd` came from the list or from the
initial accumulator. -/
theorem foldl_bUpd_mem :
    ∀ (l : List Meeting) (b : Option Meeting) (m : Meeting),
      l.foldl bUpd b = some m → m ∈ l ∨ b = some m := by
  intro l
  induction l with
  | nil =>
    intro b m h
    exact Or.inr h
  | cons x l ih =>
    intro b m h
    rw [List.foldl_cons] at h
    rcases ih (bUpd b x) m h with hm | hb
    · exact Or.inl (List.mem_cons_of_mem _ hm)
    · rcases bUpd_some b x m hb with hx | hb0
      · exact Or.inl (hx ▸ List.mem_cons_self x l)
      · exact Or.inr hb0

/-- A meeting produced by folding `bUpd` has minimal distance among the
list and the initial accumulator. -/
theorem foldl_bUpd_le :
    ∀ (l : List Meeting) (b : Option Meeting) (m : Meeting),
      l.foldl bUpd b = some m →
      (∀ x ∈ l, m.distance ≤ x.distance) ∧
      (∀ b0, b = some b0 → m.distance ≤ b0.distance) := by
  intro l
  induction l with
  | nil =>
    intro b m h
    refine ⟨by simp, ?_⟩
    intro b0 hb0
    rw [hb0] at h
    cases h
    exact le_refl _
  | cons x l ih =>
    intro b m h
    rw [List.foldl_cons] at h
    obtain ⟨hl, hacc⟩ := ih (bUpd b x) m h
    have hx : m.distance ≤ x.distance := by
      match hb : b with
      | none => exact hacc x (by simp [bUpd])
      | some b0 =>
        by_cases hcmp : x.distance < b0.distance
        · exact hacc x (by simp [bUpd, hcmp])
        · exact le_trans (hacc b0 (by simp [bUpd, hcmp])) (le_of_not_lt
            hcmp)
    refine ⟨?_, ?_⟩
    · intro y hy
      rcases List.mem_cons.mp hy with hy | hy
      · exact hy ▸ hx
      · exact hl y hy
    · intro b0 hb0
      subst hb0
      by_cases hcmp : x.distance < b0.distance
      · exact le_trans hx (le_of_lt hcmp)
      · exact hacc b0 (by simp [bUpd, hcmp])

/-- Folding `bUpd` yields `none` only from `none` over the empty list. -/
theorem foldl_bUpd_none :
    ∀ (l : List Meeting) (b : Option Meeting),
      l.foldl bUpd b = none ↔ b = none ∧ l = [] := by
  intro l
  induction l with
  | nil =>
    intro b
    simp
  | cons x l ih =>
    intro b
    rw [List.foldl_cons, ih]
    simp [bUpd_ne_none]

/-- The inner scan, with an arbitrary running best, equals its declarative
characterization: split the chronology at the first ultra-close available
grandchild meeting or ultra-close parent meeting; return that grandchild
meeting, or fold the best over the available meetings of the prefix (stop),
or over the whole list (exhausted). -/
theorem scan_meetings_eq (used : Finset ℕ) :
    ∀ (ms : List Meeting) (b : Option Meeting),
      scan_meetings used b ms =
        match (ms.dropWhile fun m => !(ultraB used m || stopB m)).head? with
        | some m =>
          if ultraB used m = true then some m
          else ((ms.takeWhile fun m => !(ultraB used m || stopB m)).filter
            (availB used)).foldl bUpd b
        | none => (ms.filter (availB used)).foldl bUpd b := by
  intro ms
  induction ms with
  | nil =>
    intro b
    simp [scan_meetings]
  | cons m ms ih =>
    intro b
    rcases hmt : m.mtype with _ | _
    · -- grandchild meeting
      have hs : stopB m = false := by simp [stopB, hmt]
      by_cases h1 : m.partner_idx ∈ used
      · have hav : availB used m = false := by simp [availB, h1]
        have hu : ultraB used m = false := by simp [ultraB, hav]
        have hscan : scan_meetings used b (m :: ms) =
            scan_meetings used b ms := by
          rw [scan_meetings, hmt]
          simp only [h1, not_true_eq_false, if_false]
        rw [hscan, ih b]
        simp [List.dropWhile_cons, List.takeWhile_cons, List.filter_cons,
          hu, hs, hav]
      · by_cases h2 : m.distance < ultra_close
        · have hav : availB used m = true := by simp [availB, hmt, h1]
          have hu : ultraB used m = true := by simp [ultraB, hav, h2]
          have hscan : scan_meetings used b (m :: ms) = some m := by
            rw [scan_meetings, hmt]
            simp only [h1, not_false_eq_true, if_true, h2]
          rw [hscan]
          simp [List.dropWhile_cons, hu]
        · have hav : availB used m = true := by simp [availB, hmt, h1]
          have hu : ultraB used m = false := by simp [ultraB, h2]
          have hscan : scan_meetings used b (m :: ms) =
              scan_meetings used (bUpd b m) ms := by
            rw [scan_meetings, hmt]
            simp only [h1, not_false_eq_true, if_true, h2, if_false]
          rw [hscan, ih (bUpd b m)]
          simp [List.dropWhile_cons, List.takeWhile_cons, List.filter_cons,
            hu, hs, hav]
    · -- parent meeting
      have hav : availB used m = false := by simp [availB, hmt]
      have hu : ultraB used m = false := by simp [ultraB, hav]
      by_cases h2 : m.distance < ultra_close
      · have hs : stopB m = true := by simp [stopB, hmt, h2]
        have hscan : scan_meetings used b (m :: ms) = b := by
          rw [scan_meetings, hmt]
          simp only [h2, if_true]
        rw [hscan]
        simp [List.dropWhile_cons, List.takeWhile_cons, hu, hs]
      · have hs : stopB m = false := by simp [stopB, h2]
        have hscan : scan_meetings used b (m :: ms) =
            scan_meetings used b ms := by
          rw [scan_meetings, hmt]
          simp only [h2, if_false]
        rw [hscan, ih b]
        simp [List.dropWhile_cons, List.takeWhile_cons, List.filter_cons,
          hu, hs, hav]

/-- **C4** — For each still-unpaired grandchild, processed in increasing
index order (the outer-loop equation, last conjunct), the extraction scans
that grandchild's meeting list in order: it immediately accepts the first
still-available grandchild meeting with distance below `1e-6`; on an
ultra-close parent meeting it stops and commits to the best still-available
grandchild meeting of the prefix, leaving the grandchild unpaired if there
was none; if the list is exhausted it commits to the best still-available
grandchild meeting overall, if any.  "Best" is made precise by the second
and third conjuncts: the committed meeting has minimal distance among the
available grandchild meetings seen, and is `none` exactly when there were
none. -/
theorem C4_chronology_scan_first_ultra_stop_or_best :
    ∀ (used : Finset ℕ) (ms : List Meeting),
      (scan_meetings used none ms =
        match (ms.dropWhile fun m => !(ultraB used m || stopB m)).head? with
        | some m =>
          if ultraB used m = true then some m
          else best_available used
            (ms.takeWhile fun m => !(ultraB used m || stopB m))
        | none => best_available used ms) ∧
      (∀ (l : List Meeting) (m : Meeting), best_available used l = some m →
        m ∈ l ∧ availB used m = true ∧
        ∀ m' ∈ l, availB used m' = true → m.distance ≤ m'.distance) ∧
      (∀ l : List Meeting, best_available used l = none ↔
        l.filter (availB used) = []) ∧
      (∀ (chron : ℕ → List Meeting) (g : ℕ) (rest : List ℕ)
        (pairs : List (ℕ × ℕ × Meeting)),
        extract_loop chron (g :: rest) pairs used =
          if g ∈ used then extract_loop chron rest pairs used
          else match scan_meetings used none (chron g) with
            | none => extract_loop chron rest pairs used
            | some m => extract_loop chron rest
                (pairs ++ [(g, m.partner_idx, m)])
                (insert m.partner_idx (insert g used))) := by
  intro used ms
  refine ⟨scan_meetings_eq used ms none, ?_, ?_, ?_⟩
  · intro l m h
    unfold best_available at h
    have hmem := foldl_bUpd_mem _ _ _ h
    have hle := foldl_bUpd_le _ _ _ h
    rcases hmem with hmem | hbad
    · have hmf := List.mem_filter.mp hmem
      refine ⟨hmf.1, hmf.2, ?_⟩
      intro m' hm' hav'
      exact hle.1 m' (List.mem_filter.mpr ⟨hm', hav'⟩)
    · exact absurd hbad (by simp)
  · intro l
    unfold best_available
    rw [foldl_bUpd_none]
    simp
  · intro chron g rest pairs
    rfl

/-- An ultra-close grandchild meeting with an unpaired partner, first in a
2-meeting chronology, used to instantiate the C4 characterization. -/
def meetA : Meeting :=
  { mtype := MType.grandchild, partner_idx := 1, distance := 0 }

/-- A later, farther grandchild meeting in the C4 witness chronology. -/
def meetB : Meeting :=
  { mtype := MType.grandchild, partner_idx := 2, distance := 1 }

/-- Concrete instance of `C4_chronology_scan_first_ultra_stop_or_best`:
on the chronology `[meetB, meetA]` (far meeting first, ultra-close meeting
second) with nothing paired yet, the scan accepts `meetA`, and `meetB` is
the minimal available meeting of the prefix. -/
theorem C4_witness :
    scan_meetings ∅ none [meetB, meetA] = some meetA ∧
    meetB ∈ [meetB] ∧ availB ∅ meetB = true ∧
    (∀ m' ∈ [meetB], availB ∅ m' = true → meetB.distance ≤ m'.distance) := by
  have h := C4_chronology_scan_first_ultra_stop_or_best ∅ [meetB, meetA]
  have hb : best_available ∅ [meetB] = some meetB := by
    norm_num [best_available, availB, bUpd, meetB]
  have h2 := h.2.1 [meetB] meetB hb
  refine ⟨?_, h2.1, h2.2.1, h2.2.2⟩
  rw [h.1]
  norm_num [ultraB, stopB, availB, meetA, meetB, ultra_close,
    List.dropWhile_cons, List.takeWhile_cons]

/-- A meeting selected by the scan is a still-available grandchild meeting
of the scanned list, unless it came from the initial accumulator. -/
theorem scan_meetings_some :
    ∀ (used : Finset ℕ) (ms : List Meeting) (b : Option Meeting)
      (m : Meeting),
      scan_meetings used b ms = some m →
      (m.mtype = MType.grandchild ∧ m.partner_idx ∉ used ∧ m ∈ ms) ∨
      b = some m := by
  intro used ms
  induction ms with
  | nil =>
    intro b m h
    exact Or.inr h
  | cons x ms ih =>
    intro b m h
    rw [scan_meetings] at h
    rcases hmt : x.mtype with _ | _ <;> simp only [hmt] at h
    · by_cases h1 : x.partner_idx ∈ used
      · rw [if_neg (by simpa using h1)] at h
        rcases ih b m h with hgood | hb
        · exact Or.inl ⟨hgood.1, hgood.2.1, List.mem_cons_of_mem _
            hgood.2.2⟩
        · exact Or.inr hb
      · rw [if_pos h1] at h
        by_cases h2 : x.distance < ultra_close
        · rw [if_pos h2] at h
          cases h
          exact Or.inl ⟨hmt, h1, List.mem_cons_self x ms⟩
        · rw [if_neg h2] at h
          rcases ih (bUpd b x) m h with hgood | hb
          · exact Or.inl ⟨hgood.1, hgood.2.1, List.mem_cons_of_mem _
              hgood.2.2⟩
          · rcases bUpd_some b x m hb with hx | hb0
            · exact Or.inl ⟨hx ▸ hmt, hx ▸ h1, hx ▸ List.mem_cons_self x
                ms⟩
            · exact Or.inr hb0
    · by_cases h2 : x.distance < ultra_close
      · rw [if_pos h2] at h
        exact Or.inr h
      · rw [if_neg h2] at h
        rcases ih b m h with hgood | hb
        · exact Or.inl ⟨hgood.1, hgood.2.1, List.mem_cons_of_mem _
            hgood.2.2⟩
        · exact Or.inr hb

/-- The indices mentioned by a pair list, in order. -/
def pair_indices (pairs : List (ℕ × ℕ × Meeting)) : List ℕ :=
  pairs.flatMap fun p => [p.1, p.2.1]

/-- The extraction loop preserves: the pair indices are distinct and all
already marked used. -/
theorem extract_loop_invariant (chron : ℕ → List Meeting)
    (hns : ∀ g m, m ∈ chron g → m.mtype = MType.grandchild →
      m.partner_idx ≠ g) :
    ∀ (ks : List ℕ) (pairs : List (ℕ × ℕ × Meeting)) (used : Finset ℕ),
      (pair_indices pairs).Nodup →
      (∀ i ∈ pair_indices pairs, i ∈ used) →
      (pair_indices (extract_loop chron ks pairs used)).Nodup := by
  intro ks
  induction ks with
  | nil =>
    intro pairs used hnd _
    exact hnd
  | cons g rest ih =>
    intro pairs used hnd hsub
    rw [extract_loop]
    by_cases hg : g ∈ used
    · rw [if_pos hg]
      exact ih pairs used hnd hsub
    · rw [if_neg hg]
      cases hscan : scan_meetings used none (chron g) with
      | none => exact ih pairs used hnd hsub
      | some m =>
        rcases scan_meetings_some used (chron g) none m hscan with hgood |
          hbad
        · obtain ⟨hgc, hpartner, hmem⟩ := hgood
          have hgp : m.partner_idx ≠ g := hns g m hmem hgc
          have hgnotin : g ∉ pair_indices pairs := fun hc => hg (hsub g hc)
          have hpnotin : m.partner_idx ∉ pair_indices pairs := fun hc =>
            hpartner (hsub _ hc)
          apply ih
          · rw [pair_indices, List.flatMap_append]
            simp only [List.flatMap_cons, List.flatMap_nil,
              List.append_nil]
            rw [List.nodup_append]
            refine ⟨hnd, by simp [Ne.symm hgp], ?_⟩
            intro a ha
            simp only [List.mem_cons, List.not_mem_nil, or_false]
            rintro (rfl | rfl)
            · exact hgnotin ha
            · exact hpnotin ha
          · intro i hi
            rw [pair_indices, List.flatMap_append] at hi
            rcases List.mem_append.mp hi with hi | hi
            · exact Finset.mem_insert_of_mem (Finset.mem_insert_of_mem
                (hsub i hi))
            · simp only [List.flatMap_cons, List.flatMap_nil,
                List.append_nil, List.mem_cons, List.not_mem_nil,
                or_false] at hi
              rcases hi with rfl | rfl
              · exact Finset.mem_insert_of_mem (Finset.mem_insert_self
                  _ _)
              · exact Finset.mem_insert_self _ _
        · exact absurd hbad (by simp)

/-- **C5** — The pair list returned by `extract_pairs_from_chronology` is
disjoint: no grandchild index appears in more than one returned pair and no
pair repeats an index (granted that a grandchild's chronology never lists
itself as a grandchild partner, which holds for every chronology the
pipeline builds); and the function is deterministic: equal chronology
inputs give identical pair lists. -/
theorem C5_extract_pairs_disjoint_and_deterministic :
    ∀ (keys : List ℕ) (chron : ℕ → List Meeting),
      ((∀ g m, m ∈ chron g → m.mtype = MType.grandchild →
          m.partner_idx ≠ g) →
        (pair_indices (extract_pairs_from_chronology keys chron)).Nodup) ∧
      (∀ (keys2 : List ℕ) (chron2 : ℕ → List Meeting), keys = keys2 →
        (∀ g, chron g = chron2 g) →
        extract_pairs_from_chronology keys chron =
          extract_pairs_from_chronology keys2 chron2) := by
  intro keys chron
  constructor
  · intro hns
    unfold extract_pairs_from_chronology
    exact extract_loop_invariant chron hns _ [] ∅ (by simp [pair_indices])
      (by simp [pair_indices])
  · intro keys2 chron2 hk hc
    subst hk
    have : chron = chron2 := funext hc
    rw [this]

/-- Concrete instance of `C5_extract_pairs_disjoint_and_deterministic`: a
2-grandchild chronology pairing 0 with 1 yields the single pair `(0, 1)`,
whose index list `[0, 1]` has no duplicates. -/
theorem C5_witness :
    extract_pairs_from_chronology [0, 1]
      (fun g => if g = 0 then [meetA] else []) = [(0, 1, meetA)] ∧
    (pair_indices (extract_pairs_from_chronology [0, 1]
      (fun g => if g = 0 then [meetA] else []))).Nodup := by
  have heval : extract_pairs_from_chronology [0, 1]
      (fun g => if g = 0 then [meetA] else []) = [(0, 1, meetA)] := by
    norm_num [extract_pairs_from_chronology, extract_loop, scan_meetings,
      meetA, ultra_close]
  refine ⟨heval, ?_⟩
  refine (C5_extract_pairs_disjoint_and_deterministic [0, 1] _).1 ?_
  intro g m hm _
  by_cases hg : g = 0
  · subst hg
    simp at hm
    subst hm
    simp [meetA]
  · rw [if_neg hg] at hm
    exact absurd hm (List.not_mem_nil m)

/-- The grandchildren of a freshly created tree carry the global indices
`0..7` in creation order, whatever the integrator does. -/
theorem created_gc_global_idx (step : Step) (root : Pt) (u_min u_max : ℚ)
    (dtc dtg : List ℚ) :
    (create_grandchildren step (create_children step root u_min u_max dtc)
      dtg).map (fun g => g.global_idx) = [0, 1, 2, 3, 4, 5, 6, 7] := rfl

/-- The grandchildren of a freshly created tree carry the parent indices
`[0, 0, 1, 1, 2, 2, 3, 3]` in creation order. -/
theorem created_gc_parent_idx (step : Step) (root : Pt) (u_min u_max : ℚ)
    (dtc dtg : List ℚ) :
    (create_grandchildren step (create_children step root u_min u_max dtc)
      dtg).map (fun g => g.parent_idx) = [0, 0, 1, 1, 2, 2, 3, 3] := rfl

/-- **C8** — After the grandchildren are created from a dt-vector,
the pairing-candidate list stored at a grandchild's `global_idx` is an
ascending sorted list containing exactly the global indices of the
grandchildren whose `parent_idx` differs from its own; it never contains a
same-parent grandchild (in particular neither the key itself nor its
sibling), and its length is the total number of grandchildren minus the
number sharing the key's parent. -/
theorem C8_pairing_candidate_map_excludes_siblings :
    ∀ (step : Step) (root : Pt) (u_min u_max : ℚ) (dtc dtg : List ℚ)
      (gcs : List GC) (g : GC),
      gcs = create_grandchildren step (create_children step root u_min
        u_max dtc) dtg →
      g ∈ gcs →
      (pairing_candidates gcs g).Sorted (· ≤ ·) ∧
      (∀ n, n ∈ pairing_candidates gcs g ↔
        ∃ o ∈ gcs, o.global_idx = n ∧ o.parent_idx ≠ g.parent_idx) ∧
      (∀ o ∈ gcs, o.parent_idx = g.parent_idx →
        o.global_idx ∉ pairing_candidates gcs g) ∧
      g.global_idx ∉ pairing_candidates gcs g ∧
      (pairing_candidates gcs g).length =
        gcs.length - (gcs.filter
          (fun o => o.parent_idx = g.parent_idx)).length := by
  intro step root u_min u_max dtc dtg gcs g hgcs hg
  have hnodup : (gcs.map (fun o => o.global_idx)).Nodup := by
    rw [hgcs, created_gc_global_idx]
    decide
  have hmem : ∀ n, n ∈ pairing_candidates gcs g ↔
      ∃ o ∈ gcs, o.global_idx = n ∧ o.parent_idx ≠ g.parent_idx := by
    intro n
    unfold pairing_candidates
    rw [List.mem_insertionSort]
    simp only [List.mem_map, List.mem_filter]
    constructor
    · rintro ⟨o, ⟨ho, hop⟩, rfl⟩
      exact ⟨o, ho, rfl, by simpa using hop⟩
    · rintro ⟨o, ho, rfl, hop⟩
      exact ⟨o, ⟨ho, by simpa using hop⟩, rfl⟩
  have hexcl : ∀ o ∈ gcs, o.parent_idx = g.parent_idx →
      o.global_idx ∉ pairing_candidates gcs g := by
    intro o ho hop hc
    obtain ⟨o', ho', hglob, hop'⟩ := (hmem o.global_idx).mp hc
    have : o' = o := List.inj_on_of_nodup_map hnodup ho' ho hglob
    rw [this, hop] at hop'
    exact hop' rfl
  refine ⟨?_, hmem, hexcl, hexcl g hg rfl, ?_⟩
  · exact List.sorted_insertionSort _ _
  · unfold pairing_candidates
    rw [(List.perm_insertionSort _ _).length_eq, List.length_map]
    have hsplit := List.length_eq_length_filter_add
      (fun o => decide (o.parent_idx = g.parent_idx)) (l := gcs)
    have hne : (gcs.filter
        (fun o => !(decide (o.parent_idx = g.parent_idx)))).length =
        (gcs.filter (fun o => o.parent_idx ≠ g.parent_idx)).length := by
      congr 1
      apply List.filter_congr
      intro o _
      simp
    omega

/-- Concrete instance of `C8_pairing_candidate_map_excludes_siblings` at
the first grandchild of a tree built with a constant integrator: the
candidate list is sorted, omits its own global index, and has length
`8 - 2`. -/
theorem C8_witness :
    (pairing_candidates (create_grandchildren (fun _ _ _ => ((0:ℚ),(0:ℚ)))
      (create_children (fun _ _ _ => ((0:ℚ),(0:ℚ))) (0,0) (-1) 1
      [1,1,1,1]) [1,1,1,1,1,1,1,1])
      { position := (0,0), parent_idx := 0, local_idx := 0, global_idx := 0,
        control := -1, dt := 1 }).Sorted (· ≤ ·) ∧
    ¬(0 ∈ pairing_candidates (create_grandchildren
      (fun _ _ _ => ((0:ℚ),(0:ℚ)))
      (create_children (fun _ _ _ => ((0:ℚ),(0:ℚ))) (0,0) (-1) 1
      [1,1,1,1]) [1,1,1,1,1,1,1,1])
      { position := (0,0), parent_idx := 0, local_idx := 0, global_idx := 0,
        control := -1, dt := 1 }) := by
  have hg : ({ position := ((0:ℚ),(0:ℚ)), parent_idx := 0,
               local_idx := 0, global_idx := 0, control := -1,
               dt := 1 } : GC) ∈
      create_grandchildren (fun _ _ _ => ((0:ℚ),(0:ℚ)))
        (create_children (fun _ _ _ => ((0:ℚ),(0:ℚ))) (0,0) (-1) 1
        [1,1,1,1]) [1,1,1,1,1,1,1,1] := by
    norm_num [create_grandchildren, create_children, List.enum,
      List.enumFrom, List.range_succ]
  have h := C8_pairing_candidate_map_excludes_siblings
    (fun _ _ _ => ((0:ℚ),(0:ℚ))) (0,0) (-1) 1 [1,1,1,1] [1,1,1,1,1,1,1,1]
    _ _ rfl hg
  exact ⟨h.1, h.2.2.2.1⟩

/-- **C1 (amended)** — Whenever `sort_and_pair_grandchildren` returns an
ordered list (rather than aborting), each consecutive index pair
`(0,1), (2,3), (4,5), (6,7)` of that list holds two grandchildren with
different `parent_idx`; a violation aborts (modelled `none`) instead of
returning.  The invariant does *not* hold for every angular configuration:
the roll correction only fixes the first pair, and there are trees built
from an all-positive dt-vector on which the function aborts — see the
counterexample. -/
theorem C1_sort_and_pair_returns_different_parent_pairs :
    ∀ (root : Pt) (grandchildren l : List GC),
      sort_and_pair_grandchildren root grandchildren = some l →
      ∀ k : Fin 4, ∃ a b, l.get? (2 * k.val) = some a ∧
        l.get? (2 * k.val + 1) = some b ∧ a.parent_idx ≠ b.parent_idx := by
  intro root grandchildren l h
  simp only [sort_and_pair_grandchildren] at h
  split_ifs at h with hok
  rw [Option.some.injEq] at h
  subst h
  intro k
  unfold pairsOk at hok
  have hk := List.all_eq_true.mp hok k.val (List.mem_range.mpr k.isLt)
  rcases hg1 : List.get? _ (2 * k.val) with _ | a
  · rw [hg1] at hk
    simp at hk
  · rcases hg2 : List.get? _ (2 * k.val + 1) with _ | b
    · rw [hg1, hg2] at hk
      simp at hk
    · rw [hg1, hg2] at hk
      exact ⟨a, b, rfl, rfl, by simpa using hk⟩

/-- Shorthand grandchild constructor for the concrete trees below. -/
def mkGC (pos : Pt) (p l g : ℕ) (u dt : ℚ) : GC :=
  { position := pos, parent_idx := p, local_idx := l, global_idx := g,
    control := u, dt := dt }

/-- The integrator of the aborting C1 configuration: positions depend only
on the signed dt, and place the 8 grandchildren on the line `y = 1` so that
the angle-sorted parent pattern is `[0,1,1,0,2,2,3,3]`. -/
def step1 : Step := fun _ _ dt =>
  if dt = 5 then (-4, 1) else if dt = -6 then (-1, 1)
  else if dt = 7 then (-3, 1) else if dt = -8 then (-2, 1)
  else if dt = 9 then (0, 1) else if dt = -10 then (1, 1)
  else if dt = 11 then (2, 1) else if dt = -12 then (3, 1)
  else (10, 10)

/-- The grandchildren of the aborting C1 tree, built from the all-positive
dt-vector `[1,2,3,4]` / `[5,...,12]`. -/
def tree1g : List GC :=
  create_grandchildren step1 (create_children step1 (0, 0) (-1) 1
    [1, 2, 3, 4]) [5, 6, 7, 8, 9, 10, 11, 12]

/-- The C1 tree's grandchildren, written out. -/
theorem tree1g_eq : tree1g =
    [mkGC (-4, 1) 0 0 0 (-1) 5, mkGC (-1, 1) 0 1 1 (-1) (-6),
     mkGC (-3, 1) 1 0 2 (-1) 7, mkGC (-2, 1) 1 1 3 (-1) (-8),
     mkGC (0, 1) 2 0 4 1 9, mkGC (1, 1) 2 1 5 1 (-10),
     mkGC (2, 1) 3 0 6 1 11, mkGC (3, 1) 3 1 7 1 (-12)] := by
  norm_num [tree1g, step1, create_grandchildren, create_children,
    List.enum, List.enumFrom, mkGC, List.range_succ]

/-- **C1 counterexample** — on the tree `tree1g`, created from a valid
(all-positive-magnitude) dt-vector, the angle-sorted parent pattern is
`[0,1,1,0,2,2,3,3]`: the roll correction leaves pair 2 with two
grandchildren of parent 2, and `sort_and_pair_grandchildren` aborts
instead of returning an ordered list, so the invariant does not hold for
every angular configuration. -/
theorem C1_counterexample :
    sort_and_pair_grandchildren (0, 0) tree1g = none := by
  have h1 : List.insertionSort (fun a b => angleGe (0, 0) a b = true)
      tree1g =
      [mkGC (-4, 1) 0 0 0 (-1) 5, mkGC (-3, 1) 1 0 2 (-1) 7,
       mkGC (-2, 1) 1 1 3 (-1) (-8), mkGC (-1, 1) 0 1 1 (-1) (-6),
       mkGC (0, 1) 2 0 4 1 9, mkGC (1, 1) 2 1 5 1 (-10),
       mkGC (2, 1) 3 0 6 1 11, mkGC (3, 1) 3 1 7 1 (-12)] := by
    rw [tree1g_eq]
    norm_num [angleGe, angClass, psub, mkGC]
  rw [sort_and_pair_grandchildren, h1]
  norm_num [pairsOk, mkGC, List.rotateLeft, List.rotateRight,
    List.findIdx, List.findIdx.go, List.range_succ]

/-- The integrator of the succeeding C1/C2 configuration: children land at
`(0, 2)`, grandchildren on the line `y = 1` in an angle order whose parent
pattern `[0,1,2,3,0,1,2,3]` passes the pair check. -/
def step2 : Step := fun _ _ dt =>
  if dt = 5 then (-4, 1) else if dt = -6 then (0, 1)
  else if dt = 7 then (-3, 1) else if dt = -8 then (1, 1)
  else if dt = 9 then (-2, 1) else if dt = -10 then (2, 1)
  else if dt = 11 then (-1, 1) else if dt = -12 then (3, 1)
  else (0, 2)

/-- The children of the succeeding configuration. -/
def tree2c : List Child :=
  create_children step2 (0, 0) (-1) 1 [1, 2, 3, 4]

/-- The grandchildren of the succeeding configuration. -/
def tree2g : List GC :=
  create_grandchildren step2 tree2c [5, 6, 7, 8, 9, 10, 11, 12]

/-- The sorted grandchildren the succeeding configuration produces. -/
def sorted2 : List GC :=
  [mkGC (-4, 1) 0 0 0 (-1) 5, mkGC (-3, 1) 1 0 2 (-1) 7,
   mkGC (-2, 1) 2 0 4 1 9, mkGC (-1, 1) 3 0 6 1 11,
   mkGC (0, 1) 0 1 1 (-1) (-6), mkGC (1, 1) 1 1 3 (-1) (-8),
   mkGC (2, 1) 2 1 5 1 (-10), mkGC (3, 1) 3 1 7 1 (-12)]

/-- The succeeding tree's grandchildren, written out. -/
theorem tree2g_eq : tree2g =
    [mkGC (-4, 1) 0 0 0 (-1) 5, mkGC (0, 1) 0 1 1 (-1) (-6),
     mkGC (-3, 1) 1 0 2 (-1) 7, mkGC (1, 1) 1 1 3 (-1) (-8),
     mkGC (-2, 1) 2 0 4 1 9, mkGC (2, 1) 2 1 5 1 (-10),
     mkGC (-1, 1) 3 0 6 1 11, mkGC (3, 1) 3 1 7 1 (-12)] := by
  norm_num [tree2g, tree2c, step2, create_grandchildren, create_children,
    List.enum, List.enumFrom, mkGC, List.range_succ]

/-- The succeeding configuration sorts and pairs without aborting. -/
theorem sort_tree2 :
    sort_and_pair_grandchildren (0, 0) tree2g = some sorted2 := by
  have h1 : List.insertionSort (fun a b => angleGe (0, 0) a b = true)
      tree2g = sorted2 := by
    rw [tree2g_eq]
    norm_num [angleGe, angClass, psub, mkGC, sorted2]
  rw [sort_and_pair_grandchildren, h1]
  norm_num [pairsOk, mkGC, sorted2, List.rotateLeft, List.rotateRight,
    List.findIdx, List.findIdx.go, List.range_succ]

/-- Concrete instance of
`C1_sort_and_pair_returns_different_parent_pairs`: on the succeeding
configuration the returned list's first pair holds grandchildren of
different parents. -/
theorem C1_witness :
    ∃ a b, sorted2.get? (2 * (0 : Fin 4).val) = some a ∧
      sorted2.get? (2 * (0 : Fin 4).val + 1) = some b ∧
      a.parent_idx ≠ b.parent_idx :=
  C1_sort_and_pair_returns_different_parent_pairs (0, 0) tree2g sorted2
    sort_tree2 0

/-- The pure child recomputation has one position per child record. -/
theorem eval_children_positions_length (step : Step) (root_pos : Pt) :
    ∀ (cinfo : List CInfo) (i : ℕ) (dtc : List ℚ),
      (eval_children_positions step root_pos i cinfo dtc).length =
        cinfo.length := by
  intro cinfo
  induction cinfo with
  | nil => intro i dtc; rfl
  | cons ci rest ih =>
    intro i dtc
    rw [eval_children_positions, List.length_cons, List.length_cons, ih]

/-- With a never-failing integrator and enough dt entries, the evaluator's
child-position loop succeeds and computes the pure recomputation. -/
theorem compute_children_positions_ok (step : Step) (root_pos : Pt) :
    ∀ (cinfo : List CInfo) (i : ℕ) (dtc : List ℚ),
      i + cinfo.length ≤ dtc.length →
      compute_children_positions (liftStep step) root_pos i cinfo dtc =
        Except.ok (eval_children_positions step root_pos i cinfo dtc) := by
  intro cinfo
  induction cinfo with
  | nil => intro i dtc _; rfl
  | cons ci rest ih =>
    intro i dtc hlen
    have hi : i < dtc.length := by
      have := List.length_cons ci rest ▸ hlen
      omega
    have hget : dtc.get? i = some (dtc.getD i 0) := by
      simp [List.getD_eq_getElem?_getD, List.getElem?_eq_getElem hi]
    rw [compute_children_positions, hget,
      eval_children_positions]
    have hrec := ih (i + 1) dtc (by
      have := List.length_cons ci rest ▸ hlen
      omega)
    simp [liftStep, Except.bind, hrec, Bind.bind, pure, Except.pure]

/-- With a never-failing integrator, valid parent indices and enough dt
entries, the evaluator's grandchild-position loop succeeds and computes the
pure recomputation. -/
theorem compute_grandchildren_positions_ok (step : Step)
    (children_pos : List Pt) :
    ∀ (ginfo : List GInfo) (i : ℕ) (dtg : List ℚ),
      i + ginfo.length ≤ dtg.length →
      (∀ gi ∈ ginfo, gi.parent_idx < children_pos.length) →
      compute_grandchildren_positions (liftStep step) children_pos i ginfo
        dtg =
        Except.ok (eval_grandchildren_positions step children_pos i ginfo
          dtg) := by
  intro ginfo
  induction ginfo with
  | nil => intro i dtg _ _; rfl
  | cons gi rest ih =>
    intro i dtg hlen hpar
    have hi : i < dtg.length := by
      have := List.length_cons gi rest ▸ hlen
      omega
    have hget : dtg.get? i = some (dtg.getD i 0) := by
      simp [List.getD_eq_getElem?_getD, List.getElem?_eq_getElem hi]
    have hp : gi.parent_idx < children_pos.length :=
      hpar gi (List.mem_cons_self gi rest)
    have hgetp : children_pos.get? gi.parent_idx =
        some (children_pos.getD gi.parent_idx (0, 0)) := by
      simp [List.getD_eq_getElem?_getD, List.getElem?_eq_getElem hp]
    rw [compute_grandchildren_positions, hget, hgetp,
      eval_grandchildren_positions]
    have hrec := ih (i + 1) dtg (by
      have := List.length_cons gi rest ▸ hlen
      omega) (fun g hg => hpar g (List.mem_cons_of_mem gi hg))
    simp [liftStep, Except.bind, hrec, Bind.bind, pure, Except.pure]

/-- Taking magnitudes twice is the same as taking them once. -/
theorem abs_map_take (dt : List ℚ) (n : ℕ) :
    ((dt.map (fun x => |x|)).take n).map (fun x => |x|) =
      (dt.take n).map (fun x => |x|) := by
  rw [← List.map_take, List.map_map]
  congr 1
  funext x
  exact abs_abs x

/-- Dropping behaves the same way. -/
theorem abs_map_drop (dt : List ℚ) (n : ℕ) :
    ((dt.map (fun x => |x|)).drop n).map (fun x => |x|) =
      (dt.drop n).map (fun x => |x|) := by
  rw [← List.map_drop, List.map_map]
  congr 1
  funext x
  exact abs_abs x

/-- **C2 (amended)** — The objective of the hard-constrained dt-vector
optimizer (`optimize_tree_area`) is *minus the sum of the areas of the 8
root-child-grandchild triangles* recomputed at the magnitudes of the
dt-vector via `TreeAreaEvaluator` — not the shoelace quadrilateral over
the 4 pair-mean points (see the counterexample) — subject to one
inequality constraint per extracted pair which is satisfied exactly when
that pair's recomputed endpoint distance is at most
`constraint_distance`. -/
theorem C2_objective_is_triangle_sum_with_pair_constraints :
    ∀ (step : Step) (norm : NormFn) (root_pos : Pt) (u_min u_max : ℚ)
      (dtc0 dtg0 : List ℚ) (gc_i gc_j : ℕ) (c : ℚ) (dt : List ℚ)
      (children : List Child) (gcs : List GC),
      children = create_children step root_pos u_min u_max dtc0 →
      gcs = create_grandchildren step children dtg0 →
      dt.length = 12 →
      (objective_function (liftStep step) root_pos
          (mk_children_info children) (mk_grandchildren_info gcs) dt =
        -(calculate_total_area_numba root_pos
          (eval_children_positions step root_pos 0
            (mk_children_info children) ((dt.take 4).map (fun x => |x|)))
          (eval_grandchildren_positions step
            (eval_children_positions step root_pos 0
              (mk_children_info children) ((dt.take 4).map (fun x => |x|)))
            0 (mk_grandchildren_info gcs)
            ((dt.drop 4).map (fun x => |x|)))
          ((mk_grandchildren_info gcs).map (fun g => g.parent_idx)))) ∧
      (0 ≤ constraint_function step norm root_pos
          (mk_children_info children) (mk_grandchildren_info gcs) gc_i gc_j
          c dt ↔
        norm (psub
          (constraint_pair_position step root_pos
            (mk_children_info children) (mk_grandchildren_info gcs) gc_i
            dt)
          (constraint_pair_position step root_pos
            (mk_children_info children) (mk_grandchildren_info gcs) gc_j
            dt)) ≤ c) := by
  intro step norm root_pos u_min u_max dtc0 dtg0 gc_i gc_j c dt children
    gcs hch hgcs h12
  constructor
  · subst hch
    subst hgcs
    have hclen : (mk_children_info (create_children step root_pos u_min
        u_max dtc0)).length = 4 := rfl
    have hglen : (mk_grandchildren_info (create_grandchildren step
        (create_children step root_pos u_min u_max dtc0) dtg0)).length =
        8 := rfl
    have hpmap : (mk_grandchildren_info (create_grandchildren step
        (create_children step root_pos u_min u_max dtc0) dtg0)).map
        (fun g => g.parent_idx) = [0, 0, 1, 1, 2, 2, 3, 3] := rfl
    have hcpos := compute_children_positions_ok step root_pos
      (mk_children_info (create_children step root_pos u_min u_max dtc0))
      0 (List.take 4 (dt.map (fun x => |x|)))
      (by rw [hclen]; simp [h12])
    have hparbound : ∀ gi ∈ mk_grandchildren_info (create_grandchildren
        step (create_children step root_pos u_min u_max dtc0) dtg0),
        gi.parent_idx < (eval_children_positions step root_pos 0
          (mk_children_info (create_children step root_pos u_min u_max
            dtc0)) (List.take 4 (dt.map (fun x => |x|)))).length := by
      intro gi hgi
      rw [eval_children_positions_length, hclen]
      have hmap : gi.parent_idx ∈ (mk_grandchildren_info
          (create_grandchildren step (create_children step root_pos u_min
            u_max dtc0) dtg0)).map (fun g => g.parent_idx) :=
        List.mem_map_of_mem _ hgi
      rw [hpmap] at hmap
      simp only [List.mem_cons, List.not_mem_nil, or_false] at hmap
      omega
    have hgpos := compute_grandchildren_positions_ok step
      (eval_children_positions step root_pos 0
        (mk_children_info (create_children step root_pos u_min u_max
          dtc0)) (List.take 4 (dt.map (fun x => |x|))))
      (mk_grandchildren_info (create_grandchildren step
        (create_children step root_pos u_min u_max dtc0) dtg0))
      0 (List.drop 4 (dt.map (fun x => |x|)))
      (by rw [hglen]; simp [h12]) hparbound
    have hcomp : ((fun x : ℚ => |x|) ∘ fun x : ℚ => |x|) =
        (fun x : ℚ => |x|) := by
      funext x
      exact abs_abs x
    have hlenabs : (dt.map (fun x => |x|)).length = 12 := by
      simp [h12]
    have hchk : tree_area_evaluator_area_checked (liftStep step) root_pos
        (mk_children_info (create_children step root_pos u_min u_max
          dtc0))
        (mk_grandchildren_info (create_grandchildren step
          (create_children step root_pos u_min u_max dtc0) dtg0))
        (dt.map (fun x => |x|)) =
        Except.ok (calculate_total_area_numba root_pos
          (eval_children_positions step root_pos 0
            (mk_children_info (create_children step root_pos u_min u_max
              dtc0)) (List.take 4 (dt.map (fun x => |x|))))
          (eval_grandchildren_positions step
            (eval_children_positions step root_pos 0
              (mk_children_info (create_children step root_pos u_min u_max
                dtc0)) (List.take 4 (dt.map (fun x => |x|))))
            0 (mk_grandchildren_info (create_grandchildren step
              (create_children step root_pos u_min u_max dtc0) dtg0))
            (List.drop 4 (dt.map (fun x => |x|))))
          ((mk_grandchildren_info (create_grandchildren step
            (create_children step root_pos u_min u_max dtc0) dtg0)).map
            (fun g => g.parent_idx))) := by
      unfold tree_area_evaluator_area_checked
      simp [hlenabs, throw, throwThe, MonadExceptOf.throw, Bind.bind,
        Except.bind, hcomp, hcpos, hgpos, pure, Except.pure]
    unfold objective_function tree_area_evaluator_area
    rw [hchk, List.map_take, List.map_drop]
  · unfold constraint_function
    constructor
    · intro h
      linarith
    · intro h
      linarith

/-- The 12-element dt-vector used by the C2 refutation and witness. -/
def dtv12 : List ℚ := [1, 2, 3, 4, 5, 6, 7, 8, 9, 10, 11, 12]

/-- The children written out: every child of `tree2c` sits at `(0, 2)`. -/
theorem tree2c_eq : tree2c =
    [{ position := (0, 2), control := 1, dt := 1, child_idx := 0 },
     { position := (0, 2), control := 1, dt := -2, child_idx := 1 },
     { position := (0, 2), control := -1, dt := 3, child_idx := 2 },
     { position := (0, 2), control := -1, dt := -4, child_idx := 3 }] := by
  norm_num [tree2c, step2, create_children, List.range_succ]

/-- **C2 counterexample** — on the tree built by `step2` from the
dt-vector `[1..12]`, the quantity maximized by the hard-constrained
optimizer (minus its objective) is `16`, the total triangle area, while
the shoelace quadrilateral area over the 4 pair-mean points of the very
same sorted tree is `0` (the 8 grandchildren are collinear): the objective
is not the shoelace quadrilateral area. -/
theorem C2_counterexample :
    sort_and_pair_grandchildren (0, 0) tree2g = some sorted2 ∧
    -(objective_function (liftStep step2) (0, 0)
      (mk_children_info tree2c) (mk_grandchildren_info tree2g) dtv12) =
      16 ∧
    shoelace_area (calculate_mean_points sorted2) = 0 ∧
    (16 : ℚ) ≠ 0 := by
  refine ⟨sort_tree2, ?_, ?_, by norm_num⟩
  · have h := (C2_objective_is_triangle_sum_with_pair_constraints step2
      normCex (0, 0) (-1) 1 [1, 2, 3, 4] [5, 6, 7, 8, 9, 10, 11, 12] 0 1 1
      dtv12 tree2c tree2g rfl rfl (by norm_num [dtv12])).1
    rw [h]
    have hcinfo : mk_children_info tree2c =
        [{ control := 1, dt_sign := 1 }, { control := 1, dt_sign := -1 },
         { control := -1, dt_sign := 1 },
         { control := -1, dt_sign := -1 }] := by
      norm_num [tree2c_eq, mk_children_info, rsign]
    have hginfo : mk_grandchildren_info tree2g =
        [{ parent_idx := 0, control := -1, dt_sign := 1 },
         { parent_idx := 0, control := -1, dt_sign := -1 },
         { parent_idx := 1, control := -1, dt_sign := 1 },
         { parent_idx := 1, control := -1, dt_sign := -1 },
         { parent_idx := 2, control := 1, dt_sign := 1 },
         { parent_idx := 2, control := 1, dt_sign := -1 },
         { parent_idx := 3, control := 1, dt_sign := 1 },
         { parent_idx := 3, control := 1, dt_sign := -1 }] := by
      norm_num [tree2g_eq, mk_grandchildren_info, rsign, mkGC]
    have htake : (dtv12.take 4).map (fun x : ℚ => |x|) =
        [1, 2, 3, 4] := by
      norm_num [dtv12]
    have hdrop : (dtv12.drop 4).map (fun x : ℚ => |x|) =
        [5, 6, 7, 8, 9, 10, 11, 12] := by
      norm_num [dtv12]
    rw [hcinfo, hginfo, htake, hdrop]
    have hcpos : eval_children_positions step2 (0, 0) 0
        [{ control := 1, dt_sign := 1 }, { control := 1, dt_sign := -1 },
         { control := -1, dt_sign := 1 },
         { control := -1, dt_sign := -1 }] [1, 2, 3, 4] =
        [(0, 2), (0, 2), (0, 2), (0, 2)] := by
      norm_num [eval_children_positions, step2]
    rw [hcpos]
    have hgpos : eval_grandchildren_positions step2
        [(0, 2), (0, 2), (0, 2), (0, 2)] 0
        [{ parent_idx := 0, control := -1, dt_sign := 1 },
         { parent_idx := 0, control := -1, dt_sign := -1 },
         { parent_idx := 1, control := -1, dt_sign := 1 },
         { parent_idx := 1, control := -1, dt_sign := -1 },
         { parent_idx := 2, control := 1, dt_sign := 1 },
         { parent_idx := 2, control := 1, dt_sign := -1 },
         { parent_idx := 3, control := 1, dt_sign := 1 },
         { parent_idx := 3, control := 1, dt_sign := -1 }]
        [5, 6, 7, 8, 9, 10, 11, 12] =
        [(-4, 1), (0, 1), (-3, 1), (1, 1), (-2, 1), (2, 1), (-1, 1),
         (3, 1)] := by
      norm_num [eval_grandchildren_positions, step2]
    rw [hgpos]
    have hc1 : ([((0:ℚ), (2:ℚ)), (0, 2), (0, 2), (0, 2)] : List Pt)[1] =
        ((0:ℚ), (2:ℚ)) := rfl
    norm_num [calculate_total_area_numba, triangle_area,
      List.getD_eq_getElem?_getD, List.getElem?_cons_zero,
      List.getElem?_cons_succ, hc1]
  · have v0 : ((0 : Fin 4)).val = 0 := rfl
    have v1 : ((1 : Fin 4)).val = 1 := rfl
    have v2 : ((2 : Fin 4)).val = 2 := rfl
    have v3 : ((3 : Fin 4)).val = 3 := rfl
    have hm0 : calculate_mean_points sorted2 0 = (-7/2, 1) := by
      norm_num [calculate_mean_points, sorted2, mkGC, v0]
    have hm1 : calculate_mean_points sorted2 1 = (-3/2, 1) := by
      norm_num [calculate_mean_points, sorted2, mkGC, v1]
    have hm2 : calculate_mean_points sorted2 2 = (1/2, 1) := by
      norm_num [calculate_mean_points, sorted2, mkGC, v2]
    have hm3 : calculate_mean_points sorted2 3 = (5/2, 1) := by
      norm_num [calculate_mean_points, sorted2, mkGC, v3]
    have g1 : ((0 : Fin 4) - 1) = 3 := rfl
    have g2 : ((1 : Fin 4) - 1) = 0 := rfl
    have g3 : ((2 : Fin 4) - 1) = 1 := rfl
    have g4 : ((3 : Fin 4) - 1) = 2 := rfl
    rw [shoelace_area]
    simp only [Fin.sum_univ_four, g1, g2, g3, g4, hm0, hm1, hm2, hm3]
    norm_num

/-- Concrete instance of
`C2_objective_is_triangle_sum_with_pair_constraints` at the `step2` tree:
the objective equals minus the recomputed triangle-sum area, and the pair
constraint for `(0, 1)` is satisfied exactly when the recomputed pair
distance is at most `2`. -/
theorem C2_witness :
    (objective_function (liftStep step2) (0, 0)
        (mk_children_info tree2c) (mk_grandchildren_info tree2g) dtv12 =
      -(calculate_total_area_numba (0, 0)
        (eval_children_positions step2 (0, 0) 0
          (mk_children_info tree2c) ((dtv12.take 4).map (fun x => |x|)))
        (eval_grandchildren_positions step2
          (eval_children_positions step2 (0, 0) 0
            (mk_children_info tree2c) ((dtv12.take 4).map (fun x => |x|)))
          0 (mk_grandchildren_info tree2g)
          ((dtv12.drop 4).map (fun x => |x|)))
        ((mk_grandchildren_info tree2g).map (fun g => g.parent_idx)))) ∧
    (0 ≤ constraint_function step2 normCex (0, 0)
        (mk_children_info tree2c) (mk_grandchildren_info tree2g) 0 1 2
        dtv12 ↔
      normCex (psub
        (constraint_pair_position step2 (0, 0) (mk_children_info tree2c)
          (mk_grandchildren_info tree2g) 0 dtv12)
        (constraint_pair_position step2 (0, 0) (mk_children_info tree2c)
          (mk_grandchildren_info tree2g) 1 dtv12)) ≤ 2) :=
  C2_objective_is_triangle_sum_with_pair_constraints step2 normCex (0, 0)
    (-1) 1 [1, 2, 3, 4] [5, 6, 7, 8, 9, 10, 11, 12] 0 1 2 dtv12 tree2c
    tree2g rfl rfl (by norm_num [dtv12])

end TreeOpt
